import Mathlib

/-
Verification of the guild-log reader (guild_log_analyzer.py).

The Python source is shallowly embedded below:
* `parse_log`, `clean_data`, `categorize_event`, `extractLevel` model the
  module-level parsing pipeline;
* `LOG_PATTERN` (a Python `re` pattern) is embedded as the executable matcher
  `matchLine`.  Character classes are modelled over ASCII (the logs are ASCII);
  `\s` is the Python set " \t\n\r\x0b\x0c", `\d` is "0"-"9", `\w` is
  alphanumeric or underscore.
* `GuildLogAnalyzerApp.apply_filters` / `export_to_csv` are modelled as pure
  state transitions (`apply_filters`, `export_to_csv`) over an `AppState`
  mirroring the mutable fields `self.df` / `self.filtered_df`.
-/

/- ### Python character classes and string helpers -/

def isSpaceCh (c : Char) : Bool :=
  c = ' ' || c = '\t' || c = '\n' || c = '\r' || c = '\x0b' || c = '\x0c'

def isDigitCh (c : Char) : Bool := '0' ≤ c && c ≤ '9'

def isWordCh (c : Char) : Bool := c.isAlphanum || c = '_'

/- Python str.strip(): remove leading and trailing whitespace. -/
def pyStripL (cs : List Char) : List Char :=
  ((cs.dropWhile isSpaceCh).reverse.dropWhile isSpaceCh).reverse

def pyStrip (s : String) : String := String.mk (pyStripL s.data)

/- Python `needle in haystack` (substring containment). -/
def pyIn (needle hay : String) : Bool :=
  hay.data.tails.any (fun t => needle.data.isPrefixOf t)

def natOfDigits (ds : List Char) : Nat :=
  ds.foldl (fun a c => a * 10 + (c.toNat - 48)) 0

/- Split on a separator character (the behaviour of `str.split(sep)` /
`String.splitOn` for a one-character separator). -/
def splitOnCh (sep : Char) : List Char → List (List Char)
  | [] => [[]]
  | c :: rest =>
    if c = sep then [] :: splitOnCh sep rest
    else
      match splitOnCh sep rest with
      | [] => [[c]]
      | l :: ls => (c :: l) :: ls

/- ### Calendar arithmetic (datetime / pytz model)

`strptime` validates the day against the real month length, and pytz converts
the UTC instant to US/Eastern.  The US/Eastern offset is modelled with the
post-2007 United States DST rule (EDT from 2:00 EST on the second Sunday of
March, i.e. 7:00 UTC, until 2:00 EDT on the first Sunday of November, i.e.
6:00 UTC); no claim below depends on the pre-2007 history that the tz database
additionally encodes. -/

structure DT where
  y : Nat
  mo : Nat
  d : Nat
  h : Nat
  mi : Nat
  s : Nat
deriving DecidableEq

def isLeap (y : Nat) : Bool := y % 4 == 0 && (y % 100 != 0 || y % 400 == 0)

def monthLengths (y : Nat) : List Nat :=
  [31, if isLeap y then 29 else 28, 31, 30, 31, 30, 31, 31, 30, 31, 30, 31]

def daysInMonth (y m : Nat) : Nat := (monthLengths y).getD (m - 1) 0

def daysBeforeMonth (y m : Nat) : Nat :=
  ((monthLengths y).take (m - 1)).foldl (· + ·) 0

/- Days since 0001-01-01 in the proleptic Gregorian calendar (that date is
day 0 and was a Monday). -/
def daysFromCivil (y m d : Nat) : Nat :=
  365 * (y - 1) + ((y - 1) / 4 - (y - 1) / 100) + (y - 1) / 400
    + daysBeforeMonth y m + (d - 1)

/- Day of month of the first Sunday of the given month. -/
def firstSundayOfMonth (y m : Nat) : Nat :=
  let w := (daysFromCivil y m 1 + 1) % 7
  1 + ((7 - w) % 7)

def nthSundayOfMonth (y m n : Nat) : Nat := firstSundayOfMonth y m + 7 * (n - 1)

def utcMin (t : DT) : Nat := daysFromCivil t.y t.mo t.d * 1440 + t.h * 60 + t.mi

def inEasternDST (t : DT) : Bool :=
  let dstStart := daysFromCivil t.y 3 (nthSundayOfMonth t.y 3 2) * 1440 + 7 * 60
  let dstEnd := daysFromCivil t.y 11 (nthSundayOfMonth t.y 11 1) * 1440 + 6 * 60
  decide (dstStart ≤ utcMin t) && decide (utcMin t < dstEnd)

def prevDay (y m d : Nat) : Nat × Nat × Nat :=
  if d > 1 then (y, m, d - 1)
  else if m > 1 then (y, m - 1, daysInMonth y (m - 1))
  else (y - 1, 12, 31)

/- Shift a civil timestamp back by `k` minutes (`k` at most 1440). -/
def shiftBackMinutes (t : DT) (k : Nat) : DT :=
  let tod := t.h * 60 + t.mi
  if k ≤ tod then
    { t with h := (tod - k) / 60, mi := (tod - k) % 60 }
  else
    let tod2 := tod + 1440 - k
    match prevDay t.y t.mo t.d with
    | (y, m, d) => ⟨y, m, d, tod2 / 60, tod2 % 60, t.s⟩

def utcToEastern (t : DT) : DT :=
  shiftBackMinutes t (if inEasternDST t then 240 else 300)

/- ### strptime with format `%d %b '%y %I:%M%p`

Models `datetime.strptime(timestamp_str, "%d %b '%y %I:%M%p")`: day 1..31 and
valid for the month, 3-letter month abbreviation (case-insensitive), 2-digit
year (00-68 maps to 20xx, 69-99 to 19xx), 12-hour clock hour 1..12, minute
0..59, am/pm marker.  Returns `none` where Python raises `ValueError`. -/

def monthAbbrs : List (List Char) :=
  [String.data "jan", String.data "feb", String.data "mar", String.data "apr",
   String.data "may", String.data "jun", String.data "jul", String.data "aug",
   String.data "sep", String.data "oct", String.data "nov", String.data "dec"]

def monthOfAbbr (cs : List Char) : Option Nat :=
  match monthAbbrs.findIdx? (fun a => a == cs.map Char.toLower) with
  | some i => some (i + 1)
  | none => none

def strptimeTs (cs : List Char) : Option DT :=
  let ds := cs.takeWhile isDigitCh
  let day := natOfDigits ds
  match cs.dropWhile isDigitCh with
  | ' ' :: m1 :: m2 :: m3 :: ' ' :: '\'' :: y1 :: y2 :: ' '
      :: h1 :: h2 :: ':' :: n1 :: n2 :: a :: 'm' :: [] =>
    match monthOfAbbr [m1, m2, m3] with
    | none => none
    | some mo =>
      if [y1, y2, h1, h2, n1, n2].all isDigitCh && (a.toLower = 'a' || a.toLower = 'p') then
        let yy := natOfDigits [y1, y2]
        let y := if yy ≤ 68 then 2000 + yy else 1900 + yy
        let hh := natOfDigits [h1, h2]
        let mm := natOfDigits [n1, n2]
        if 1 ≤ day && day ≤ daysInMonth y mo && 1 ≤ hh && hh ≤ 12 && mm ≤ 59 then
          let h24 := if a.toLower = 'p' then (if hh = 12 then 12 else hh + 12)
                     else (if hh = 12 then 0 else hh)
          some ⟨y, mo, day, h24, mm, 0⟩
        else none
      else none
  | _ => none

/- strftime `%Y-%m-%d %I:%M:%S %p` (the stored display format). -/

def pad2 (n : Nat) : String := if n < 10 then "0" ++ toString n else toString n

def pad4 (n : Nat) : String := toString n

def hour12 (h : Nat) : Nat := if h % 12 = 0 then 12 else h % 12

def ampm (h : Nat) : String := if h ≥ 12 then "PM" else "AM"

def fmtDisplay (t : DT) : String :=
  pad4 t.y ++ "-" ++ pad2 t.mo ++ "-" ++ pad2 t.d ++ " "
    ++ pad2 (hour12 t.h) ++ ":" ++ pad2 t.mi ++ ":" ++ pad2 t.s ++ " " ++ ampm t.h

/- ### The line grammar (LOG_PATTERN)

    ^\d+\)\s+
    (?P<timestamp>\d{1,2} \w{3} '\d{2} \d{2}:\d{2}[ap]m)\s+:\s+
    (?P<player>.+?)\s+
    (?P<action>(has|is|matches|PROMOTED|DEMOTED|JOINED|Left|Come|died)\s.+)$

The prefix up to the `:` separator is deterministic under backtracking: each
`\s+` there is followed by a non-whitespace requirement, `\d+` by `\)`, and the
1-or-2-digit day is forced by whether the second character is a digit.  The
tail after the `:` genuinely backtracks: the greedy `\s+` is tried longest
first, the non-greedy player shortest first, the `\s+` before the action group
longest first, exactly as the Python engine does. -/

def leadWords : List (List Char) :=
  [String.data "has", String.data "is", String.data "matches",
   String.data "PROMOTED", String.data "DEMOTED", String.data "JOINED",
   String.data "Left", String.data "Come", String.data "died"]

/- `.+$`: one or more non-newline characters reaching the end of the input,
where `$` also matches just before a single final newline. -/
def dotPlusEnd (cs : List Char) : Bool :=
  let body := if cs.getLast? = some '\n' then cs.dropLast else cs
  !body.isEmpty && body.all (fun c => c ≠ '\n')

/- `(has|is|...|died)\s.+$` anchored at the head of `cs`. -/
def actionCheck (cs : List Char) : Bool :=
  leadWords.any fun w =>
    w.isPrefixOf cs &&
      (match cs.drop w.length with
       | c :: rest => isSpaceCh c && dotPlusEnd rest
       | [] => false)

/- The action group spans from the lead word to the end of `.+`, which stops
before a single final newline. -/
def actionGroupOf (cs : List Char) : List Char :=
  if cs.getLast? = some '\n' then cs.dropLast else cs

/- `\w{3} '\d{2} \d{2}:\d{2}[ap]m` (the timestamp after the day digits). -/
def tsTail (cs : List Char) : Option (List Char × List Char) :=
  match cs with
  | m1 :: m2 :: m3 :: ' ' :: '\'' :: y1 :: y2 :: ' '
      :: h1 :: h2 :: ':' :: n1 :: n2 :: a :: 'm' :: rest =>
    if [m1, m2, m3].all isWordCh && [y1, y2, h1, h2, n1, n2].all isDigitCh
        && (a = 'a' || a = 'p') then
      some ([m1, m2, m3, ' ', '\'', y1, y2, ' ', h1, h2, ':', n1, n2, a, 'm'], rest)
    else none
  | _ => none

/- `\d{1,2} ` followed by `tsTail`; the greedy 2-digit alternative is forced
whenever the second character is a digit. -/
def matchTs (cs : List Char) : Option (List Char × List Char) :=
  match cs with
  | a :: b :: rest =>
    if isDigitCh a && isDigitCh b then
      match rest with
      | ' ' :: rest2 =>
        (tsTail rest2).map (fun p => (a :: b :: ' ' :: p.1, p.2))
      | _ => none
    else if isDigitCh a && b = ' ' then
      (tsTail rest).map (fun p => (a :: b :: p.1, p.2))
    else none
  | _ => none

/- `^\d+\)\s+<timestamp>\s+:` — returns the timestamp group and the input
remaining after the `:`. -/
def matchPrefixPart (cs : List Char) : Option (List Char × List Char) :=
  let ds := cs.takeWhile isDigitCh
  if ds.isEmpty then none else
  match cs.dropWhile isDigitCh with
  | ')' :: r2 =>
    if (r2.takeWhile isSpaceCh).isEmpty then none else
    match matchTs (r2.dropWhile isSpaceCh) with
    | some (ts, r4) =>
      if (r4.takeWhile isSpaceCh).isEmpty then none else
      (match r4.dropWhile isSpaceCh with
       | ':' :: r6 => some (ts, r6)
       | _ => none)
    | none => none
  | _ => none

/- For a fixed amount `k` of whitespace consumed by the `\s+` after the `:`,
try player lengths shortest-first, and for each the `\s+` before the action
longest-first; the first candidate whose remainder satisfies the action group
wins, as in the Python engine. -/
def searchTailAt (r2 : List Char) (k : Nat) : Option (List Char × List Char) :=
  let rest := r2.drop k
  (List.range rest.length).findSome? fun i =>
    let pl := rest.take (i + 1)
    let r3 := rest.drop (i + 1)
    if pl.all (fun c => c ≠ '\n') then
      let mw := (r3.takeWhile isSpaceCh).length
      if mw = 0 then none else
        (List.range mw).findSome? fun j =>
          let act := r3.drop (mw - j)
          if actionCheck act then some (pl, actionGroupOf act) else none
    else none

/- `\s+(?P<player>.+?)\s+(?P<action>...)$` applied after the `:`; the greedy
`\s+` is tried longest-first. -/
def matchTail (r2 : List Char) : Option (List Char × List Char) :=
  let w := (r2.takeWhile isSpaceCh).length
  if w = 0 then none else
  (List.range w).findSome? fun j => searchTailAt r2 (w - j)

structure MatchGroups where
  timestamp : List Char
  player : List Char
  action : List Char
deriving DecidableEq

/- `LOG_PATTERN.match(line)`. -/
def matchLine (line : String) : Option MatchGroups :=
  match matchPrefixPart line.data with
  | some (ts, r) => (matchTail r).map (fun p => ⟨ts, p.1, p.2⟩)
  | none => none

/- ### parse_log -/

structure Row where
  Timestamp : String
  Player : String
  Event : String
  Details : String
deriving DecidableEq

/- `action.split(';', 1)` when `';' in action`, else `(action, '')`. -/
def semiSplit (a : List Char) : List Char × List Char :=
  if a.contains ';' then
    (a.takeWhile (fun c => c ≠ ';'), (a.dropWhile (fun c => c ≠ ';')).drop 1)
  else (a, [])

/- Build the appended record from the matched groups: timestamp formatted via
strptime → UTC → US/Eastern → strftime, or `''` on `ValueError`; player,
event type and details stripped. -/
def buildRecord (g : MatchGroups) : Row :=
  let tsStr := match strptimeTs g.timestamp with
    | some t => fmtDisplay (utcToEastern t)
    | none => ""
  ⟨tsStr, pyStrip (String.mk g.player),
    pyStrip (String.mk (semiSplit g.action).1),
    pyStrip (String.mk (semiSplit g.action).2)⟩

def parseLine (line : String) : Option Row := (matchLine line).map buildRecord

def linesOf (content : String) : List String :=
  (splitOnCh '\n' (pyStripL content.data)).map (fun l => pyStrip (String.mk l))

/- The parsing loop: per line, strip, match, append one record on a match and
skip (with a diagnostic) otherwise.  The surrounding `try` in the source can
only fire on an internal error, which the total model cannot produce. -/
def parseLogGo : List String → List Row → List Row
  | [], acc => acc
  | l :: ls, acc =>
    match parseLine l with
    | some r => parseLogGo ls (acc ++ [r])
    | none => parseLogGo ls acc

def parse_log (content : String) : List Row :=
  parseLogGo (linesOf content) []

/- ### clean_data -/

structure CRow where
  Timestamp : String
  Player : String
  Event : String
  Details : String
  Level : Option Nat
  EventType : String
deriving DecidableEq

def lvlMark : List Char := String.data "LVL: "

/- `df['Event'].str.extract(r'LVL: (\d+)')` followed by `pd.to_numeric`:
`re.search` finds the leftmost position where `LVL: ` is followed by at least
one digit and captures the maximal digit run there; no marker means NaN,
modelled as `none`. -/
def extractLevel (e : String) : Option Nat :=
  e.data.tails.findSome? fun t =>
    if lvlMark.isPrefixOf t then
      let ds := (t.drop 5).takeWhile isDigitCh
      if ds.isEmpty then none else some (natOfDigits ds)
    else none

/- The cascading substring classifier, verbatim from the source. -/
def categorize_event (e : String) : String :=
  if pyIn "has died at level" e || pyIn "has died" e
      || (pyIn "has Left the guild" e && pyIn "[D]" e) then "Death"
  else if pyIn "Leveled to" e then "Level Up"
  else if pyIn "JOINED the guild" e || pyIn "has JOINED the guild" e then "Join"
  else if pyIn "Left the guild" e || pyIn "is no longer in the Guild" e then "Leave"
  else if pyIn "PROMOTED" e then "Promotion"
  else if pyIn "DEMOTED" e then "Demotion"
  else if pyIn "Come ONLINE after being INACTIVE" e then "Online"
  else "Other"

/- `clean_data`: add the Level column and the Event Type column, both derived
from the Event column; rows and their order are unchanged. -/
def clean_data (rows : List Row) : List CRow :=
  rows.map fun r =>
    ⟨r.Timestamp, r.Player, r.Event, r.Details, extractLevel r.Event,
      categorize_event r.Event⟩

/- ### The regular-expression engine behind pandas str.contains

`Series.str.contains(pat, case=False, na=False)` compiles `pat` with
`re.IGNORECASE` and keeps the rows where `re.search` finds a match.  The
fragment below models the parts of Python regex syntax relevant here:
literal characters, `.`, character classes with ranges and negation, escapes
(`\d`, `\D`, `\w`, `\W`, `\s`, `\S`, `\n`, `\t`, `\r`, escaped punctuation),
groups, alternation, the quantifiers `*`, `+`, `?` (a trailing lazy `?` only
changes which match is found, never whether one exists, so it is parsed and
ignored), and the anchors `^` and `$`.  Invalid patterns — an unmatched `(`
or `)`, an unterminated class, a trailing backslash, a quantifier with
nothing to repeat, a double quantifier, backreferences and `(?...)`
extensions — are rejected, modelling the `re.error` that Python raises.
Counted repetition `{m,n}` is not modelled (`{` and `}` are taken as literal
characters, as Python itself does when they do not form a quantifier). -/

inductive RAst where
  | eps
  | chr (c : Char)
  | dot
  | cls (neg : Bool) (items : List (Char × Char))
  | caret
  | dollar
  | seq (a b : RAst)
  | alt (a b : RAst)
  | star (a : RAst)
deriving DecidableEq

def clsD : List (Char × Char) := [( '0', '9')]
def clsW : List (Char × Char) := [( '0', '9'), ( 'a', 'z'), ( 'A', 'Z'), ( '_', '_')]
def clsS : List (Char × Char) :=
  [( ' ', ' '), ( '\t', '\t'), ( '\n', '\n'), ( '\r', '\r'), ( '\x0b', '\x0b'), ( '\x0c', '\x0c')]

def escAtom (c : Char) : Except Unit RAst :=
  if c = 'd' then .ok (.cls false clsD)
  else if c = 'D' then .ok (.cls true clsD)
  else if c = 'w' then .ok (.cls false clsW)
  else if c = 'W' then .ok (.cls true clsW)
  else if c = 's' then .ok (.cls false clsS)
  else if c = 'S' then .ok (.cls true clsS)
  else if c = 'n' then .ok (.chr '\n')
  else if c = 't' then .ok (.chr '\t')
  else if c = 'r' then .ok (.chr '\r')
  else if c.isAlphanum then .error ()
  else .ok (.chr c)

/- Parse the interior of a `[...]` class up to the closing bracket. -/
def parseClsItems : List Char → List (Char × Char) → Except Unit (List (Char × Char) × List Char)
  | [], _ => .error ()
  | ']' :: rest, acc => .ok (acc.reverse, rest)
  | '\\' :: c :: rest, acc =>
    if c = 'd' then parseClsItems rest (clsD.reverse ++ acc)
    else if c = 'w' then parseClsItems rest (clsW.reverse ++ acc)
    else if c = 's' then parseClsItems rest (clsS.reverse ++ acc)
    else if c.isAlphanum && c ≠ 'n' && c ≠ 't' && c ≠ 'r' then .error ()
    else
      let lit := if c = 'n' then '\n' else if c = 't' then '\t' else if c = 'r' then '\r' else c
      parseClsItems rest ((lit, lit) :: acc)
  | a :: '-' :: b :: rest, acc =>
    if b = ']' then .ok ((( '-', '-') :: (a, a) :: acc).reverse, rest)
    else parseClsItems rest ((a, b) :: acc)
  | a :: rest, acc => parseClsItems rest ((a, a) :: acc)

def parseCls (cs : List Char) : Except Unit (RAst × List Char) :=
  let (neg, cs1) := match cs with
    | '^' :: r => (true, r)
    | _ => (false, cs)
  match cs1 with
  | ']' :: r =>
    match parseClsItems r [( ']', ']')] with
    | .ok (its, rest) => .ok (.cls neg its, rest)
    | .error e => .error e
  | _ =>
    match parseClsItems cs1 [] with
    | .ok (its, rest) => .ok (.cls neg its, rest)
    | .error e => .error e

def isQuantCh (c : Char) : Bool := c = '*' || c = '+' || c = '?'

/- The lazy-quantifier marker and the double-quantifier error. -/
def quantTail (r : RAst) (cs : List Char) : Except Unit (RAst × List Char) :=
  match cs with
  | '?' :: r2 => if (r2.head?.map isQuantCh).getD false then .error () else .ok (r, r2)
  | c :: _ => if isQuantCh c then .error () else .ok (r, cs)
  | [] => .ok (r, [])

mutual

def parseAtom : Nat → List Char → Except Unit (RAst × List Char)
  | 0, _ => .error ()
  | fuel + 1, cs =>
    match cs with
    | [] => .error ()
    | '(' :: rest =>
      (match rest with
       | '?' :: _ => .error ()
       | _ =>
         match parseAlt fuel rest with
         | .ok (r, ')' :: rest2) => .ok (r, rest2)
         | .ok _ => .error ()
         | .error e => .error e)
    | '[' :: rest => parseCls rest
    | '\\' :: c :: rest =>
      (match escAtom c with
       | .ok r => .ok (r, rest)
       | .error e => .error e)
    | '\\' :: [] => .error ()
    | '.' :: rest => .ok (.dot, rest)
    | '^' :: rest => .ok (.caret, rest)
    | '$' :: rest => .ok (.dollar, rest)
    | c :: rest =>
      if isQuantCh c || c = ')' || c = '|' then .error () else .ok (.chr c, rest)

/- An atom followed by at most one quantifier (with an optional lazy `?`);
a second quantifier is Python's "multiple repeat" error. -/
def parseFactor : Nat → List Char → Except Unit (RAst × List Char)
  | 0, _ => .error ()
  | fuel + 1, cs =>
    match parseAtom fuel cs with
    | .error e => .error e
    | .ok (a, rest) =>
      match rest with
      | '*' :: r2 => quantTail (.star a) r2
      | '+' :: r2 => quantTail (.seq a (.star a)) r2
      | '?' :: r2 => quantTail (.alt a .eps) r2
      | _ => .ok (a, rest)

def parseSeq : Nat → List Char → Except Unit (RAst × List Char)
  | 0, _ => .error ()
  | fuel + 1, cs =>
    match cs with
    | [] => .ok (.eps, [])
    | ')' :: _ => .ok (.eps, cs)
    | '|' :: _ => .ok (.eps, cs)
    | _ =>
      match parseFactor fuel cs with
      | .error e => .error e
      | .ok (a, rest) =>
        match rest with
        | [] => .ok (a, [])
        | ')' :: _ => .ok (a, rest)
        | '|' :: _ => .ok (a, rest)
        | _ =>
          match parseSeq fuel rest with
          | .error e => .error e
          | .ok (b, rest2) => .ok (.seq a b, rest2)

def parseAlt : Nat → List Char → Except Unit (RAst × List Char)
  | 0, _ => .error ()
  | fuel + 1, cs =>
    match parseSeq fuel cs with
    | .error e => .error e
    | .ok (a, '|' :: rest) =>
      (match parseAlt fuel rest with
       | .ok (b, rest2) => .ok (.alt a b, rest2)
       | .error e => .error e)
    | .ok (a, rest) => .ok (a, rest)

end

def compileRe (pat : String) : Except Unit RAst :=
  match parseAlt (2 * pat.data.length + 2) pat.data with
  | .ok (r, []) => .ok r
  | .ok _ => .error ()
  | .error e => .error e

/- IGNORECASE class membership: a character matches if it, its lowercase or
its uppercase folding lies in one of the ranges. -/
def classMatch (neg : Bool) (items : List (Char × Char)) (c : Char) : Bool :=
  let inCls := fun (x : Char) => items.any (fun p => p.1 ≤ x && x ≤ p.2)
  let hit := inCls c || inCls c.toLower || inCls c.toUpper
  if neg then !hit else hit

/- Backtracking matcher in continuation style; `flen` is the length of the
whole subject (needed by `^`), `k` the continuation on the rest of the
subject.  `star` is unrolled through non-empty iterations only, which accepts
exactly the same subjects as Python's greedy loop.  The `fuel` argument is a
termination device only: every chain of nested calls strictly decreases the
lexicographic measure (size of the expression, length of the subject, a
star/expression flag), so the generous bound passed by `reMatchB` is never
exhausted and the result does not depend on it. -/
def matchR : Nat → RAst → Nat → List Char → (List Char → Bool) → Bool
  | 0, _, _, _, _ => false
  | fuel + 1, r, flen, cs, k =>
    match r with
    | .eps => k cs
    | .chr c =>
      (match cs with
       | [] => false
       | x :: cs2 => (x.toLower = c.toLower) && k cs2)
    | .dot =>
      (match cs with
       | [] => false
       | x :: cs2 => (x ≠ '\n') && k cs2)
    | .cls neg its =>
      (match cs with
       | [] => false
       | x :: cs2 => classMatch neg its x && k cs2)
    | .caret => (cs.length = flen) && k cs
    | .dollar => (cs.isEmpty || cs = [ '\n' ]) && k cs
    | .seq a b => matchR fuel a flen cs (fun cs2 => matchR fuel b flen cs2 k)
    | .alt a b => matchR fuel a flen cs k || matchR fuel b flen cs k
    | .star a =>
      matchR fuel a flen cs
        (fun cs2 => decide (cs2.length < cs.length) && matchR fuel (.star a) flen cs2 k)
      || k cs

def rsize : RAst → Nat
  | .eps | .chr _ | .dot | .cls _ _ | .caret | .dollar => 1
  | .seq a b => rsize a + rsize b + 1
  | .alt a b => rsize a + rsize b + 1
  | .star a => rsize a + 2

def matchFuel (r : RAst) (n : Nat) : Nat := (rsize r + 2) * (n + 2) * 2

/- `bool(re.search(pat, s, re.IGNORECASE))`: try every start position, leftmost
first. -/
def reMatchB (r : RAst) (s : String) : Bool :=
  s.data.tails.any
    (fun t => matchR (matchFuel r s.data.length) r s.data.length t (fun _ => true))

def reSearchCI (pat s : String) : Except Unit Bool :=
  match compileRe pat with
  | .ok r => .ok (reMatchB r s)
  | .error e => .error e

/- ### The application state and apply_filters

`self.df` holds the cleaned records, `self.filtered_df` the current filtered
view.  After the date-range branch runs, the Timestamp column of the view no
longer holds the stored display strings but pandas datetime values (NaT for
the empty-string sentinel); a cell is therefore a sum `TsCell`. -/

inductive TsCell where
  | str (v : String)
  | dt (v : Option DT)
deriving DecidableEq

structure FRow where
  Timestamp : TsCell
  Player : String
  Event : String
  Details : String
  Level : Option Nat
  EventType : String
deriving DecidableEq

def toFRow (r : CRow) : FRow :=
  ⟨.str r.Timestamp, r.Player, r.Event, r.Details, r.Level, r.EventType⟩

structure AppState where
  df : List CRow
  filtered : List FRow
deriving DecidableEq

/- The six text inputs read by apply_filters (raw widget values; the method
strips each). -/
structure Criteria where
  player : String
  eventType : String
  startDate : String
  endDate : String
  find : String
  sortBy : String

/- How apply_filters can come back to the shell: normally, with the
"no data" warning, with the two messagebox error paths, or by an uncaught
`re.error` escaping from str.contains. -/
inductive Outcome where
  | ok
  | warnNoData
  | errDate
  | errSort
  | exnRegex
deriving DecidableEq

/- `df[col.str.contains(pat, case=False, na=False)]`; an invalid pattern
raises out of the method. -/
def containsFilter (rows : List FRow) (get : FRow → String) (pat : String) :
    Except Unit (List FRow) :=
  match compileRe pat with
  | .error e => .error e
  | .ok r => .ok (rows.filter (fun row => reMatchB r (get row)))

/- `pd.to_datetime` on a user-supplied date bound.  The documented input is
`YYYY-MM-DD` (pandas also accepts unpadded month/day); strings outside this
shape model the ValueError branch. -/
def parseUserDate (s : String) : Option DT :=
  match splitOnCh '-' s.data with
  | [ys, ms, ds] =>
    if ys.length = 4 && ys.all isDigitCh
        && 1 ≤ ms.length && ms.length ≤ 2 && ms.all isDigitCh
        && 1 ≤ ds.length && ds.length ≤ 2 && ds.all isDigitCh then
      let y := natOfDigits ys
      let m := natOfDigits ms
      let d := natOfDigits ds
      if 1 ≤ m && m ≤ 12 && 1 ≤ d && d ≤ daysInMonth y m then
        some ⟨y, m, d, 0, 0, 0⟩
      else none
    else none
  | _ => none

/- `pd.to_datetime` over the Timestamp column: the empty-string sentinel
becomes NaT, a stored display string `YYYY-MM-DD hh:mm:ss AM/PM` parses back
to its datetime (the only two shapes parse_log ever stores). -/
def parseDisplay (s : String) : Option DT :=
  match s.data with
  | y1 :: y2 :: y3 :: y4 :: '-' :: o1 :: o2 :: '-' :: d1 :: d2 :: ' '
      :: h1 :: h2 :: ':' :: n1 :: n2 :: ':' :: s1 :: s2 :: ' ' :: ap :: 'M' :: [] =>
    if [y1, y2, y3, y4, o1, o2, d1, d2, h1, h2, n1, n2, s1, s2].all isDigitCh
        && (ap = 'A' || ap = 'P') then
      let hh := natOfDigits [h1, h2]
      let h24 := if ap = 'P' then (if hh = 12 then 12 else hh + 12)
                 else (if hh = 12 then 0 else hh)
      if 1 ≤ hh && hh ≤ 12 then
        some ⟨natOfDigits [y1, y2, y3, y4], natOfDigits [o1, o2], natOfDigits [d1, d2],
              h24, natOfDigits [n1, n2], natOfDigits [s1, s2]⟩
      else none
    else none
  | _ => none

def convertTsCell : TsCell → TsCell
  | .str v => .dt (if v = "" then none else parseDisplay v)
  | .dt o => .dt o

def dtRank (t : DT) : Nat :=
  daysFromCivil t.y t.mo t.d * 86400 + t.h * 3600 + t.mi * 60 + t.s

/- `(ts >= start) & (ts <= end)`; any comparison against NaT is False. -/
def rangeKeep (lo hi : DT) (r : FRow) : Bool :=
  match r.Timestamp with
  | .dt (some t) => decide (dtRank lo ≤ dtRank t) && decide (dtRank t ≤ dtRank hi)
  | _ => false

/- `str()` of a datetime value, `YYYY-MM-DD HH:MM:SS`. -/
def render24 (t : DT) : String :=
  pad4 t.y ++ "-" ++ pad2 t.mo ++ "-" ++ pad2 t.d ++ " "
    ++ pad2 t.h ++ ":" ++ pad2 t.mi ++ ":" ++ pad2 t.s

/- `row.astype(str)` per column: a datetime column shows the 24-hour
rendering and the string `NaT`; the float Level column shows `7.0` / `nan`. -/
def strOfTs : TsCell → String
  | .str v => v
  | .dt none => "NaT"
  | .dt (some t) => render24 t

def strOfLevel : Option Nat → String
  | none => "nan"
  | some n => toString n ++ ".0"

def rowFieldStrs (r : FRow) : List String :=
  [strOfTs r.Timestamp, r.Player, r.Event, r.Details, strOfLevel r.Level, r.EventType]

/- The free-text filter: keep rows where ANY stringified field matches. -/
def findFilter (rows : List FRow) (pat : String) : Except Unit (List FRow) :=
  match compileRe pat with
  | .error e => .error e
  | .ok r => .ok (rows.filter (fun row => (rowFieldStrs row).any (fun v => reMatchB r v)))

/- ### sort_values

`DataFrame.sort_values(by=col)` sorts ascending with missing keys (NaN/NaT)
last.  The pandas default quicksort fixes the key order but not the relative
order of equal keys; the model uses a stable insertion sort, and no theorem
below depends on the order of ties.  A datetime Timestamp column is ordered
through its fixed-width 24-hour rendering, which is order-isomorphic to the
datetime order. -/

/- Missing keys (NaN/NaT) order after every present key: na_position last. -/
def optLeB {κ : Type} (le : κ → κ → Bool) : Option κ → Option κ → Bool
  | none, none => true
  | none, some _ => false
  | some _, none => true
  | some u, some v => le u v

def natLeB (a b : Nat) : Bool := decide (a ≤ b)

def insertAsc {κ : Type} (le : κ → κ → Bool) (key : FRow → Option κ)
    (x : FRow) : List FRow → List FRow
  | [] => [x]
  | y :: ys =>
    if optLeB le (key x) (key y) then x :: y :: ys else y :: insertAsc le key x ys

def sortAsc {κ : Type} (le : κ → κ → Bool) (key : FRow → Option κ) :
    List FRow → List FRow
  | [] => []
  | x :: xs => insertAsc le key x (sortAsc le key xs)

/- Python string `<`: strict lexicographic comparison by code point
(computes the lexicographic order on the character lists, executably). -/
def listLtB : List Char → List Char → Bool
  | [], [] => false
  | [], _ :: _ => true
  | _ :: _, [] => false
  | a :: as, b :: bs => if a < b then true else if b < a then false else listLtB as bs

def strLeB (a b : String) : Bool := !(listLtB b.data a.data)

def tsKey (r : FRow) : Option String :=
  match r.Timestamp with
  | .str v => some v
  | .dt (some t) => some (render24 t)
  | .dt none => none

def dfColumns : List String :=
  ["Timestamp", "Player", "Event", "Details", "Level", "Event Type"]

def sortValues (rows : List FRow) (col : String) : List FRow :=
  if col = "Timestamp" then sortAsc strLeB tsKey rows
  else if col = "Player" then sortAsc strLeB (fun r => some r.Player) rows
  else if col = "Event" then sortAsc strLeB (fun r => some r.Event) rows
  else if col = "Details" then sortAsc strLeB (fun r => some r.Details) rows
  else if col = "Level" then sortAsc natLeB (fun r => r.Level) rows
  else if col = "Event Type" then sortAsc strLeB (fun r => some r.EventType) rows
  else rows

/- The find-string and sort stages shared by both date branches. -/
def findSortStage (df : List CRow) (fd : List FRow) (c : Criteria) :
    AppState × Outcome :=
  let findS := pyStrip c.find
  match (if findS ≠ "" then findFilter fd findS else .ok fd) with
  | .error _ => (⟨df, fd⟩, .exnRegex)
  | .ok fd4 =>
    let sortS := pyStrip c.sortBy
    if sortS ≠ "" then
      if sortS ∈ dfColumns then (⟨df, sortValues fd4 sortS⟩, .ok)
      else (⟨df, fd4⟩, .errSort)
    else (⟨df, fd4⟩, .ok)

/- `GuildLogAnalyzerApp.apply_filters`, as a transition on (df, filtered_df).
Mirrors the source line by line: the early no-data return, the fresh copy,
player filter, event-type filter, date-range branch (which first re-types the
Timestamp column, and on a bad bound errors out leaving the partially
filtered copy in place), free-text filter, and sorting. -/
def apply_filters (st : AppState) (c : Criteria) : AppState × Outcome :=
  if st.df.isEmpty then (st, .warnNoData)
  else
    let fd0 := st.df.map toFRow
    let playerS := pyStrip c.player
    match (if playerS ≠ "" then containsFilter fd0 (fun r => r.Player) playerS else .ok fd0) with
    | .error _ => (⟨st.df, fd0⟩, .exnRegex)
    | .ok fd1 =>
      let eventS := pyStrip c.eventType
      match (if eventS ≠ "" then containsFilter fd1 (fun r => r.EventType) eventS else .ok fd1) with
      | .error _ => (⟨st.df, fd1⟩, .exnRegex)
      | .ok fd2 =>
        let startS := pyStrip c.startDate
        let endS := pyStrip c.endDate
        if startS ≠ "" && endS ≠ "" then
          match parseUserDate startS, parseUserDate endS with
          | some lo, some hi =>
            findSortStage st.df (((fd2.map (fun r => { r with Timestamp := convertTsCell r.Timestamp })).filter (rangeKeep lo hi))) c
          | _, _ => (⟨st.df, fd2⟩, .errDate)
        else findSortStage st.df fd2 c

/- ### export_to_csv

Writes `filtered_df.to_csv(...)`: header row then one row per record in view
order; NaT and NaN render as empty cells.  (CSV quoting is orthogonal to the
claims; cells are modelled unescaped.)  `none` is the "No data to export"
warning path where nothing is written. -/

def csvTs : TsCell → String
  | .str v => v
  | .dt none => ""
  | .dt (some t) => render24 t

def csvLevel : Option Nat → String
  | none => ""
  | some n => toString n ++ ".0"

def csvRow (r : FRow) : List String :=
  [csvTs r.Timestamp, r.Player, r.Event, r.Details, csvLevel r.Level, r.EventType]

def export_to_csv (rows : List FRow) : Option (List (List String)) :=
  if rows.isEmpty then none else some (dfColumns :: rows.map csvRow)

/- ### Helper lemmas -/

theorem parseLogGo_eq (ls : List String) (acc : List Row) :
    parseLogGo ls acc = acc ++ ls.filterMap parseLine := by
  induction ls generalizing acc with
  | nil => simp [parseLogGo]
  | cons l ls ih =>
    unfold parseLogGo
    cases h : parseLine l with
    | none => simp [h, ih]
    | some r => simp [h, ih]

theorem filterMap_length_eq_filter_isSome {α β : Type} (f : α → Option β)
    (l : List α) :
    (l.filterMap f).length = (l.filter (fun x => (f x).isSome)).length := by
  induction l with
  | nil => rfl
  | cons x xs ih =>
    cases h : f x with
    | none => simp [List.filterMap_cons, List.filter_cons, h, ih]
    | some b => simp [List.filterMap_cons, List.filter_cons, h, ih]

theorem findSome_isSome_iff {α β : Type} (f : α → Option β) (l : List α) :
    (l.findSome? f).isSome = true ↔ ∃ a ∈ l, (f a).isSome = true := by
  induction l with
  | nil => simp [List.findSome?_nil]
  | cons x xs ih =>
    rw [List.findSome?_cons]
    cases hfx : f x with
    | none => simp [hfx, ih]
    | some b => simp [hfx]

/- ### C1 -/

/-- C1: `parse_log` emits exactly one record per line matched by the grammar,
in input line order, and zero records for a non-matching line; equivalently
the parsing loop is `filterMap parseLine` over the stripped lines, and the
output length is the number of matching lines. -/
theorem c1_one_record_per_matching_line (content : String) :
    parse_log content = (linesOf content).filterMap parseLine ∧
    (parse_log content).length
      = ((linesOf content).filter (fun l => (parseLine l).isSome)).length := by
  have h := parseLogGo_eq (linesOf content) []
  refine ⟨by simpa [parse_log] using h, ?_⟩
  rw [parse_log, h]
  simpa using filterMap_length_eq_filter_isSome parseLine (linesOf content)

/- ### C3 -/

/-- C3: `categorize_event` is a total function into the closed 8-label set,
and the priority order puts the death rules first: any event string containing
both "has died" and "Leveled to" is classified Death, not Level Up. -/
theorem c3_categorize_total_and_death_first :
    (∀ e : String, categorize_event e ∈
      ["Death", "Level Up", "Join", "Leave", "Promotion", "Demotion", "Online", "Other"]) ∧
    (∀ e : String, pyIn "has died" e = true → pyIn "Leveled to" e = true →
      categorize_event e = "Death") := by
  constructor
  · intro e
    unfold categorize_event
    split_ifs <;> simp
  · intro e h1 _h2
    unfold categorize_event
    rw [h1]
    simp

theorem c3_witness :
    pyIn "has died" "he has died and Leveled to 9" = true ∧
    pyIn "Leveled to" "he has died and Leveled to 9" = true ∧
    categorize_event "he has died and Leveled to 9" = "Death" :=
  ⟨by decide, by decide,
    c3_categorize_total_and_death_first.2 "he has died and Leveled to 9"
      (by decide) (by decide)⟩

/- ### C10 -/

/-- C10: with no records loaded, apply_filters warns and returns before any
filtering: the state, in particular the previous filtered view, is exactly
unchanged for every criteria bundle. -/
theorem c10_empty_df_leaves_state_unchanged (st : AppState) (c : Criteria)
    (h : st.df = []) : apply_filters st c = (st, Outcome.warnNoData) := by
  unfold apply_filters
  simp [h]

theorem c10_witness :
    apply_filters ⟨[], [⟨.str "x", "p", "e", "d", none, "Other"⟩]⟩
        ⟨"a", "b", "c", "d", "e", "f"⟩
      = (⟨[], [⟨.str "x", "p", "e", "d", none, "Other"⟩]⟩, Outcome.warnNoData) :=
  c10_empty_df_leaves_state_unchanged _ _ rfl

/- ### C7 -/

theorem extractLevel_isSome_iff (e : String) :
    (extractLevel e).isSome = true ↔
      ∃ pre c rest, e.data = pre ++ lvlMark ++ c :: rest ∧ isDigitCh c = true := by
  rw [extractLevel, findSome_isSome_iff]
  constructor
  · rintro ⟨t, htmem, hf⟩
    by_cases hp : lvlMark.isPrefixOf t
    case neg => simp [hp] at hf
    have hpre : lvlMark <+: t := List.isPrefixOf_iff_prefix.mp hp
    obtain ⟨r0, hr0⟩ := hpre
    have hd5 : t.drop 5 = r0 := by
      rw [← hr0]
      have h5 : lvlMark.length = 5 := rfl
      rw [← h5, List.drop_left]
    rw [hp] at hf
    simp only [if_true] at hf
    rcases hr : r0 with _ | ⟨c, rest⟩
    · rw [hd5, hr] at hf
      simp [List.takeWhile] at hf
    · by_cases hc : isDigitCh c
      · obtain ⟨pre, hpre2⟩ := (List.mem_tails t e.data).mp htmem
        exact ⟨pre, c, rest, by rw [← hpre2, ← hr0, hr, List.append_assoc], hc⟩
      · rw [hd5, hr] at hf
        simp [List.takeWhile, hc] at hf
  · rintro ⟨pre, c, rest, hdecomp, hc⟩
    refine ⟨lvlMark ++ c :: rest, ?_, ?_⟩
    · exact (List.mem_tails _ _).mpr ⟨pre, by rw [hdecomp, List.append_assoc]⟩
    · have hp : lvlMark.isPrefixOf (lvlMark ++ c :: rest) :=
        List.isPrefixOf_iff_prefix.mpr ⟨c :: rest, rfl⟩
      have hd5 : (lvlMark ++ c :: rest).drop 5 = c :: rest := List.drop_left lvlMark _
      simp [hp, hd5, List.takeWhile, hc]

/-- C7 (amended): the Level field is extracted from the Event column only —
the event-type clause before the first `;`, not the full action clause with
its details — via the leftmost `LVL: ` marker followed by a digit; it is null
exactly when the Event string has no such marker; the event-type
`has JOINED the guild LVL: 7` yields level 7. -/
theorem c7_level_from_event_column_only :
    (∀ rows r, r ∈ clean_data rows → r.Level = extractLevel r.Event) ∧
    (∀ e : String, (extractLevel e).isSome = true ↔
      ∃ pre c rest, e.data = pre ++ lvlMark ++ c :: rest ∧ isDigitCh c = true) ∧
    extractLevel "has JOINED the guild LVL: 7" = some 7 := by
  refine ⟨?_, extractLevel_isSome_iff, by decide⟩
  intro rows r hr
  rw [clean_data, List.mem_map] at hr
  obtain ⟨r0, _, hr0⟩ := hr
  rw [← hr0]

/-- C7 (counterexample): a `LVL:` marker that sits in the details part, after
the `;` separator, is not seen: the claim says the record yields level 5, the
code yields a null Level. -/
theorem c7_counterexample :
    clean_data (parse_log "1) 3 Jan '24 09:15pm : Bob has died; LVL: 5")
      = [⟨"2024-01-03 04:15:00 PM", "Bob", "has died", "LVL: 5", none, "Death"⟩]
    ∧ pyIn "LVL: 5" "has died; LVL: 5" = true := by
  exact ⟨by decide, by decide⟩

theorem c7_witness :
    (⟨"", "p", "has x LVL: 3", "", some 3, "Other"⟩ : CRow).Level
      = extractLevel "has x LVL: 3" :=
  c7_level_from_event_column_only.1 [⟨"", "p", "has x LVL: 3", ""⟩] _ (by decide)

/- ### C2 -/

/-- C2 (amended): a line whose timestamp token fits the regex shape but whose
value `strptime` rejects (bad month abbreviation, hour outside 01..12, day
invalid for the month, minute above 59) is still kept: the record is emitted
with the empty-string timestamp sentinel and the player, event type, details
(and hence the downstream category) taken from the match.  A timestamp whose
token breaks the regex shape itself — e.g. a missing am/pm marker — makes the
whole line non-matching instead (see the counterexample). -/
theorem c2_semantically_bad_timestamp_kept (line : String) (g : MatchGroups)
    (hm : matchLine line = some g) (hbad : strptimeTs g.timestamp = none) :
    parseLine line = some ⟨"", pyStrip (String.mk g.player),
        pyStrip (String.mk (semiSplit g.action).1),
        pyStrip (String.mk (semiSplit g.action).2)⟩ ∧
    clean_data [buildRecord g]
      = [⟨"", pyStrip (String.mk g.player),
          pyStrip (String.mk (semiSplit g.action).1),
          pyStrip (String.mk (semiSplit g.action).2),
          extractLevel (pyStrip (String.mk (semiSplit g.action).1)),
          categorize_event (pyStrip (String.mk (semiSplit g.action).1))⟩] := by
  have hb : buildRecord g = ⟨"", pyStrip (String.mk g.player),
      pyStrip (String.mk (semiSplit g.action).1),
      pyStrip (String.mk (semiSplit g.action).2)⟩ := by
    unfold buildRecord
    rw [hbad]
  constructor
  · unfold parseLine
    rw [hm]
    simp [hb]
  · rw [hb]
    rfl

theorem c2_witness :
    matchLine "1) 3 Foo '24 09:15pm : Bob has died badly"
        = some ⟨String.data "3 Foo '24 09:15pm", String.data "Bob",
                String.data "has died badly"⟩ ∧
    strptimeTs (String.data "3 Foo '24 09:15pm") = none ∧
    parseLine "1) 3 Foo '24 09:15pm : Bob has died badly"
      = some ⟨"", "Bob", "has died badly", ""⟩ :=
  ⟨by decide, rfl,
    ((c2_semantically_bad_timestamp_kept "1) 3 Foo '24 09:15pm : Bob has died badly"
        ⟨String.data "3 Foo '24 09:15pm", String.data "Bob", String.data "has died badly"⟩
        (by decide) rfl).1)⟩

/-- C2 (counterexample): a line whose am/pm marker is missing but which
otherwise fits the documented shape produces ZERO records — the line is
skipped entirely, not kept with an empty timestamp as the claim states. -/
theorem c2_counterexample :
    parse_log "1) 3 Jan '24 09:15 : Bob has died at level 4" = [] ∧
    matchLine "1) 3 Jan '24 09:15 : Bob has died at level 4" = none := by
  exact ⟨by decide, by decide⟩


/- ### C8 -/

theorem digit_not_space (c : Char) (h : isDigitCh c = true) : isSpaceCh c = false := by
  cases hsp : isSpaceCh c with
  | false => rfl
  | true =>
    exfalso
    rw [isSpaceCh] at hsp
    simp only [Bool.or_eq_true, decide_eq_true_eq] at hsp
    rcases hsp with ((((h1 | h1) | h1) | h1) | h1) | h1 <;>
      (subst h1; exact absurd h (by decide))

theorem takeWhile_append_stop {p : Char → Bool} (xs : List Char) (y : Char)
    (ys : List Char) (hxs : ∀ x ∈ xs, p x = true) (hy : p y = false) :
    (xs ++ y :: ys).takeWhile p = xs ∧ (xs ++ y :: ys).dropWhile p = y :: ys := by
  induction xs with
  | nil => simp [List.takeWhile, List.dropWhile, hy]
  | cons x xs ih =>
    have hx : p x = true := hxs x (by simp)
    have hrest : ∀ a ∈ xs, p a = true := fun a ha => hxs a (by simp [ha])
    obtain ⟨h1, h2⟩ := ih hrest
    simp [List.takeWhile, List.dropWhile, hx, h1, h2]

theorem tsTail_of_shape (m1 m2 m3 y1 y0 h1 h0 mi1 mi0 ap : Char) (rest : List Char)
    (hm1w : isWordCh m1 = true) (hm2w : isWordCh m2 = true) (hm3w : isWordCh m3 = true)
    (hy1 : isDigitCh y1 = true) (hy0 : isDigitCh y0 = true)
    (hh1 : isDigitCh h1 = true) (hh0 : isDigitCh h0 = true)
    (hm1 : isDigitCh mi1 = true) (hm0 : isDigitCh mi0 = true)
    (hap : (ap = 'a' || ap = 'p') = true) :
    tsTail (m1 :: m2 :: m3 :: ' ' :: '\'' :: y1 :: y0 :: ' '
        :: h1 :: h0 :: ':' :: mi1 :: mi0 :: ap :: 'm' :: rest)
      = some ([m1, m2, m3, ' ', '\'', y1, y0, ' ', h1, h0, ':', mi1, mi0, ap, 'm'], rest) := by
  rw [tsTail]
  simp [hm1w, hm2w, hm3w, hy1, hy0, hh1, hh0, hm1, hm0, hap]

theorem matchTs_of_shape (day : List Char) (m1 m2 m3 y1 y0 h1 h0 mi1 mi0 ap : Char)
    (rest : List Char)
    (hdaylen : day.length = 1 ∨ day.length = 2) (hdayd : ∀ c ∈ day, isDigitCh c = true)
    (hm1w : isWordCh m1 = true) (hm2w : isWordCh m2 = true) (hm3w : isWordCh m3 = true)
    (hy1 : isDigitCh y1 = true) (hy0 : isDigitCh y0 = true)
    (hh1 : isDigitCh h1 = true) (hh0 : isDigitCh h0 = true)
    (hm1 : isDigitCh mi1 = true) (hm0 : isDigitCh mi0 = true)
    (hap : (ap = 'a' || ap = 'p') = true) :
    matchTs (day ++ ' ' :: m1 :: m2 :: m3 :: ' ' :: '\'' :: y1 :: y0 :: ' '
        :: h1 :: h0 :: ':' :: mi1 :: mi0 :: ap :: 'm' :: rest)
      = some (day ++ [' ', m1, m2, m3, ' ', '\'', y1, y0, ' ', h1, h0, ':', mi1, mi0, ap, 'm'],
              rest) := by
  have htt := tsTail_of_shape m1 m2 m3 y1 y0 h1 h0 mi1 mi0 ap rest
    hm1w hm2w hm3w hy1 hy0 hh1 hh0 hm1 hm0 hap
  rcases hdaylen with hl1 | hl2
  · obtain ⟨a, ha⟩ : ∃ a, day = [a] := by
      cases day with
      | nil => simp at hl1
      | cons a r =>
        cases r with
        | nil => exact ⟨a, rfl⟩
        | cons b r2 => simp at hl1
    subst ha
    have hda : isDigitCh a = true := hdayd a (by simp)
    have hnds : isDigitCh ' ' = false := by decide
    simp only [List.cons_append, List.nil_append]
    rw [matchTs]
    · simp [hda, hnds, htt]
    · intro rest2 hcontra
      have hsp : m1 = ' ' := by
        injection hcontra with h1 h2
      rw [hsp] at hm1w
      exact absurd hm1w (by decide)
  · obtain ⟨a, b, hab⟩ : ∃ a b, day = [a, b] := by
      cases day with
      | nil => simp at hl2
      | cons a r =>
        cases r with
        | nil => simp at hl2
        | cons b r2 =>
          cases r2 with
          | nil => exact ⟨a, b, rfl⟩
          | cons c r3 => simp at hl2
    subst hab
    have hda : isDigitCh a = true := hdayd a (by simp)
    have hdb : isDigitCh b = true := hdayd b (by simp)
    simp only [List.cons_append, List.nil_append]
    rw [matchTs]
    simp [hda, hdb, htt]

/- A line in the documented input shape with a two-digit (zero-padded) hour:
ordinal, `) `, day, space, month, ` '`, year, space, hour, `:`, minute,
am/pm marker, ` : `, player, space, lead word, space, event tail. -/
def mkLine (ord day mon : List Char) (y1 y0 h1 h0 mi1 mi0 ap : Char)
    (player lead tl : List Char) : String :=
  String.mk (ord ++ ')' :: ' ' :: day
    ++ ' ' :: mon
    ++ ' ' :: '\'' :: y1 :: y0 :: ' ' :: h1 :: h0 :: ':' :: mi1 :: mi0 :: ap :: 'm'
    :: ' ' :: ':' :: ' ' :: player
    ++ ' ' :: lead
    ++ ' ' :: tl)
theorem singleWs (rest : List Char)
    (hd : ∀ c, rest.head? = some c → isSpaceCh c = false) :
    (' ' :: rest).takeWhile isSpaceCh = [' ']
      ∧ (' ' :: rest).dropWhile isSpaceCh = rest := by
  cases rest with
  | nil => exact ⟨rfl, rfl⟩
  | cons d0 dr =>
    have h0 : isSpaceCh d0 = false := hd d0 rfl
    simp [List.takeWhile, List.dropWhile, h0, show isSpaceCh ' ' = true from rfl]

theorem actionCheck_of_lead (lead tl : List Char) (hlead : lead ∈ leadWords)
    (htlne : tl ≠ []) (htlnl : ∀ c ∈ tl, c ≠ '\n') :
    actionCheck (lead ++ ' ' :: tl) = true := by
  rw [actionCheck, List.any_eq_true]
  refine ⟨lead, hlead, ?_⟩
  have hpref : lead.isPrefixOf (lead ++ ' ' :: tl) = true :=
    List.isPrefixOf_iff_prefix.mpr (List.prefix_append lead _)
  have hdl : (lead ++ ' ' :: tl).drop lead.length = ' ' :: tl :=
    List.drop_left lead _
  rw [hpref, hdl]
  simp only [Bool.true_and]
  have hdpe : dotPlusEnd tl = true := by
    rw [dotPlusEnd]
    have hlast : ¬ tl.getLast? = some '\n' := by
      intro hc
      exact htlnl '\n' (List.mem_of_mem_getLast? hc) rfl
    simp only [hlast, if_false]
    have htlall : tl.all (fun c => c ≠ '\n') = true := by
      rw [List.all_eq_true]
      intro c hc
      simpa using htlnl c hc
    have htlne2 : tl.isEmpty = false := by
      cases tl with
      | nil => exact absurd rfl htlne
      | cons a r => rfl
    simp only [htlne2, Bool.not_false, Bool.true_and, htlall]
  simp [hdpe, show isSpaceCh ' ' = true from rfl]

theorem searchTailAt_one_isSome (player lead tl : List Char)
    (hplne : player ≠ []) (hplnl : ∀ c ∈ player, c ≠ '\n')
    (hlead : lead ∈ leadWords)
    (htlne : tl ≠ []) (htlnl : ∀ c ∈ tl, c ≠ '\n') :
    (searchTailAt (' ' :: (player ++ (' ' :: lead ++ ' ' :: tl))) 1).isSome = true := by
  have hleadfacts : ∀ w ∈ leadWords,
      (match w with | [] => false | c :: _ => !isSpaceCh c) = true := by decide
  obtain ⟨l0, lrest, hldecomp, hl0⟩ :
      ∃ l0 lrest, lead = l0 :: lrest ∧ isSpaceCh l0 = false := by
    cases hl : lead with
    | nil =>
      have := hleadfacts lead hlead
      rw [hl] at this
      simp at this
    | cons l0 lrest =>
      have := hleadfacts lead hlead
      rw [hl] at this
      simp only [Bool.not_eq_true'] at this
      exact ⟨l0, lrest, rfl, this⟩
  have hplpos : 0 < player.length := List.length_pos.mpr hplne
  have hlen : player.length - 1 + 1 = player.length := by omega
  simp only [searchTailAt, List.drop_succ_cons, List.drop_zero]
  rw [findSome_isSome_iff]
  refine ⟨player.length - 1, ?_, ?_⟩
  · rw [List.mem_range, List.length_append]
    omega
  · simp only [hlen]
    have htake := List.take_left player ((' ' :: lead) ++ (' ' :: tl))
    have hdrop := List.drop_left player ((' ' :: lead) ++ (' ' :: tl))
    rw [htake, hdrop]
    have hplall : player.all (fun c => c ≠ '\n') = true := by
      rw [List.all_eq_true]
      intro c hc
      simpa using hplnl c hc
    simp only [hplall, if_true]
    have hX : ((' ' :: lead) ++ (' ' :: tl)) = ' ' :: (lead ++ ' ' :: tl) := by simp
    rw [hX]
    have hsw := singleWs (lead ++ ' ' :: tl) (by
      intro c hc
      rw [hldecomp] at hc
      simp only [List.cons_append, List.head?_cons, Option.some.injEq] at hc
      rw [← hc]
      exact hl0)
    rw [hsw.1]
    simp only [List.length_cons, List.length_nil]
    rw [show List.range 1 = [0] from rfl, List.findSome?_cons]
    have hdropm : (' ' :: (lead ++ ' ' :: tl)).drop (1 - 0) = lead ++ ' ' :: tl := rfl
    rw [hdropm]
    rw [actionCheck_of_lead lead tl hlead htlne htlnl]
    simp

theorem matchTail_isSome (player lead tl : List Char)
    (hplne : player ≠ []) (hplnl : ∀ c ∈ player, c ≠ '\n')
    (hplh : ∀ c, player.head? = some c → isSpaceCh c = false)
    (hlead : lead ∈ leadWords)
    (htlne : tl ≠ []) (htlnl : ∀ c ∈ tl, c ≠ '\n') :
    (matchTail (' ' :: (player ++ (' ' :: lead ++ ' ' :: tl)))).isSome = true := by
  simp only [matchTail]
  have hsw := singleWs (player ++ (' ' :: lead ++ ' ' :: tl)) (by
    intro c hc
    cases player with
    | nil => exact absurd rfl hplne
    | cons p0 pr =>
      simp only [List.cons_append, List.head?_cons, Option.some.injEq] at hc
      rw [← hc]
      exact hplh p0 rfl)
  rw [hsw.1]
  simp only [List.length_cons, List.length_nil]
  rw [show List.range 1 = [0] from rfl, List.findSome?_cons]
  have hst := searchTailAt_one_isSome player lead tl hplne hplnl hlead htlne htlnl
  cases hres : searchTailAt (' ' :: (player ++ (' ' :: lead ++ ' ' :: tl))) (1 - 0) with
  | none =>
    rw [show (1 - 0) = 1 from rfl] at hres
    rw [hres] at hst
    simp at hst
  | some v => simp

theorem matchPrefixPart_of (ord mid tsTok rest2 : List Char)
    (hordne : ord ≠ []) (hordd : ∀ c ∈ ord, isDigitCh c = true)
    (hmidh : ∀ c, mid.head? = some c → isSpaceCh c = false)
    (hts : matchTs mid = some (tsTok, ' ' :: ':' :: rest2)) :
    matchPrefixPart (ord ++ ')' :: ' ' :: mid) = some (tsTok, rest2) := by
  obtain ⟨htw, hdw⟩ := @takeWhile_append_stop isDigitCh ord ')' (' ' :: mid)
    hordd (by decide)
  have hordE : ord.isEmpty = false := by
    cases ord with
    | nil => exact absurd rfl hordne
    | cons a r => rfl
  simp only [matchPrefixPart, htw, hdw, hordE, Bool.false_eq_true, if_false]
  have hsw1 := singleWs mid hmidh
  rw [hsw1.1, hsw1.2]
  simp only [List.isEmpty_cons, Bool.false_eq_true, if_false]
  rw [hts]
  have hsw2 := singleWs (':' :: rest2)
    (by intro c hc; simp only [List.head?_cons, Option.some.injEq] at hc; rw [← hc]; rfl)
  simp only [hsw2.1, hsw2.2, List.isEmpty_cons, Bool.false_eq_true, if_false]

/-- C8 (amended): every line in the documented format whose 12-hour time is
written with a TWO-digit (zero-padded) hour — any non-empty ordinal, a 1- or
2-digit day, any 3-letter month-shaped token, 2-digit year, 2-digit minute,
an am/pm marker, a non-empty player name containing no newline and not
starting with whitespace, and a lead-word event clause with a non-empty
newline-free tail — matches the line grammar and yields a record.  The claim
as stated also admits single-digit hours such as `9:15pm`; those lines do NOT
match, because LOG_PATTERN demands `\d{2}:\d{2}` (see the counterexample). -/
theorem c8_documented_format_matches
    (ord day mon : List Char) (y1 y0 h1 h0 mi1 mi0 ap : Char)
    (player lead tl : List Char)
    (hordne : ord ≠ []) (hordd : ∀ c ∈ ord, isDigitCh c = true)
    (hdaylen : day.length = 1 ∨ day.length = 2) (hdayd : ∀ c ∈ day, isDigitCh c = true)
    (hmonlen : mon.length = 3) (hmonw : ∀ c ∈ mon, isWordCh c = true)
    (hy1 : isDigitCh y1 = true) (hy0 : isDigitCh y0 = true)
    (hh1 : isDigitCh h1 = true) (hh0 : isDigitCh h0 = true)
    (hm1 : isDigitCh mi1 = true) (hm0 : isDigitCh mi0 = true)
    (hap : ap = 'a' ∨ ap = 'p')
    (hplne : player ≠ []) (hplnl : ∀ c ∈ player, c ≠ '\n')
    (hplh : ∀ c, player.head? = some c → isSpaceCh c = false)
    (hlead : lead ∈ leadWords)
    (htlne : tl ≠ []) (htlnl : ∀ c ∈ tl, c ≠ '\n') :
    (parseLine (mkLine ord day mon y1 y0 h1 h0 mi1 mi0 ap player lead tl)).isSome
      = true := by
  obtain ⟨m1, m2, m3, hmdecomp⟩ : ∃ m1 m2 m3, mon = [m1, m2, m3] := by
    cases mon with
    | nil => simp at hmonlen
    | cons a r1 =>
      cases r1 with
      | nil => simp at hmonlen
      | cons b r2 =>
        cases r2 with
        | nil => simp at hmonlen
        | cons c r3 =>
          cases r3 with
          | nil => exact ⟨a, b, c, rfl⟩
          | cons d r4 => simp at hmonlen
  subst hmdecomp
  have hm1w : isWordCh m1 = true := hmonw m1 (by simp)
  have hm2w : isWordCh m2 = true := hmonw m2 (by simp)
  have hm3w : isWordCh m3 = true := hmonw m3 (by simp)
  have hap2 : (ap = 'a' || ap = 'p') = true := by
    rcases hap with h | h <;> simp [h]
  have hdata : (mkLine ord day [m1, m2, m3] y1 y0 h1 h0 mi1 mi0 ap player lead tl).data
      = ord ++ ')' :: ' '
        :: (day ++ ' ' :: m1 :: m2 :: m3 :: ' ' :: '\'' :: y1 :: y0 :: ' '
            :: h1 :: h0 :: ':' :: mi1 :: mi0 :: ap :: 'm' :: ' ' :: ':'
            :: (' ' :: (player ++ (' ' :: lead ++ ' ' :: tl)))) := by
    simp [mkLine]
  have hdayhead : ∀ c, (day ++ ' ' :: m1 :: m2 :: m3 :: ' ' :: '\'' :: y1 :: y0 :: ' '
      :: h1 :: h0 :: ':' :: mi1 :: mi0 :: ap :: 'm' :: ' ' :: ':'
      :: (' ' :: (player ++ (' ' :: lead ++ ' ' :: tl)))).head? = some c
      → isSpaceCh c = false := by
    intro c hc
    cases day with
    | nil =>
      rcases hdaylen with h | h <;> simp at h
    | cons d0 dr =>
      simp only [List.cons_append, List.head?_cons, Option.some.injEq] at hc
      rw [← hc]
      exact digit_not_space d0 (hdayd d0 (by simp))
  have hts := matchTs_of_shape day m1 m2 m3 y1 y0 h1 h0 mi1 mi0 ap
    (' ' :: ':' :: (' ' :: (player ++ (' ' :: lead ++ ' ' :: tl))))
    hdaylen hdayd hm1w hm2w hm3w hy1 hy0 hh1 hh0 hm1 hm0 hap2
  have hpre : matchPrefixPart
      (mkLine ord day [m1, m2, m3] y1 y0 h1 h0 mi1 mi0 ap player lead tl).data
      = some (day ++ [' ', m1, m2, m3, ' ', '\'', y1, y0, ' ', h1, h0, ':', mi1, mi0, ap, 'm'],
              ' ' :: (player ++ (' ' :: lead ++ ' ' :: tl))) := by
    rw [hdata]
    exact matchPrefixPart_of ord _ _ _ hordne hordd hdayhead hts
  have hmt := matchTail_isSome player lead tl hplne hplnl hplh hlead htlne htlnl
  rw [parseLine, matchLine, hpre]
  simpa using hmt

/-- C8 (counterexample): the documented-format line with a single-digit hour
`9:15pm` — the very shape the claim includes — matches nothing and yields no
record. -/
theorem c8_counterexample :
    parseLine "12) 3 Jan '24 9:15pm : Aria Nightshade has died at level 42; slain by Dragon"
        = none ∧
    parse_log "12) 3 Jan '24 9:15pm : Aria Nightshade has died at level 42; slain by Dragon"
      = [] := by
  exact ⟨by decide, by decide⟩

theorem c8_witness :
    mkLine (String.data "12") (String.data "3") (String.data "Jan") '2' '4' '0' '9' '1' '5'
        'p' (String.data "Aria Nightshade") (String.data "has")
        (String.data "died at level 42; slain by Dragon")
      = "12) 3 Jan '24 09:15pm : Aria Nightshade has died at level 42; slain by Dragon" ∧
    (parseLine (mkLine (String.data "12") (String.data "3") (String.data "Jan") '2' '4' '0'
        '9' '1' '5' 'p' (String.data "Aria Nightshade") (String.data "has")
        (String.data "died at level 42; slain by Dragon"))).isSome = true :=
  ⟨by decide,
    c8_documented_format_matches (String.data "12") (String.data "3") (String.data "Jan")
      '2' '4' '0' '9' '1' '5' 'p' (String.data "Aria Nightshade") (String.data "has")
      (String.data "died at level 42; slain by Dragon")
      (by decide) (by decide) (by decide) (by decide) (by decide) (by decide)
      (by decide) (by decide) (by decide) (by decide) (by decide) (by decide)
      (by decide) (by decide) (by decide)
      (by
        intro c hc
        simp only [show (String.data "Aria Nightshade").head? = some 'A' from rfl,
          Option.some.injEq] at hc
        rw [← hc]
        rfl)
      (by decide) (by decide) (by decide)⟩

/- ### C4 -/

/-- C4 (amended): when both date bounds are supplied and at least one is
malformed, apply_filters signals the date usage error — but it does NOT leave
the previous filtered view unchanged: `self.filtered_df` was already
overwritten with the fresh copy filtered by the player and event-type
criteria, and that partial result is what remains when the method returns. -/
theorem c4_invalid_dates_error_not_atomic (st : AppState) (c : Criteria)
    (fd1 fd2 : List FRow)
    (hdf : st.df ≠ [])
    (h1 : (if pyStrip c.player ≠ "" then
        containsFilter (st.df.map toFRow) (fun r => r.Player) (pyStrip c.player)
      else .ok (st.df.map toFRow)) = .ok fd1)
    (h2 : (if pyStrip c.eventType ≠ "" then
        containsFilter fd1 (fun r => r.EventType) (pyStrip c.eventType)
      else .ok fd1) = .ok fd2)
    (hs : pyStrip c.startDate ≠ "") (he : pyStrip c.endDate ≠ "")
    (hbad : parseUserDate (pyStrip c.startDate) = none
          ∨ parseUserDate (pyStrip c.endDate) = none) :
    apply_filters st c = (⟨st.df, fd2⟩, Outcome.errDate) := by
  have hdfE : st.df.isEmpty = false := by
    cases hd : st.df with
    | nil => exact absurd hd hdf
    | cons a r => rfl
  rw [apply_filters]
  simp only [hdfE, Bool.false_eq_true, if_false, h1, h2]
  rcases hbad with hb | hb
  · rw [hb]
    simp [hs, he]
  · cases hps : parseUserDate (pyStrip c.startDate) with
    | none => simp [hs, he]
    | some lo =>
      rw [hb]
      simp [hs, he]

theorem c4_witness :
    apply_filters
        ⟨clean_data (parse_log "1) 3 Jan '24 09:15pm : Alice has died x"), []⟩
        ⟨"Alice", "", "2024-01-01", "garbage", "", ""⟩
      = (⟨clean_data (parse_log "1) 3 Jan '24 09:15pm : Alice has died x"),
          [⟨.str "2024-01-03 04:15:00 PM", "Alice", "has died x", "", none, "Death"⟩]⟩,
         Outcome.errDate) :=
  c4_invalid_dates_error_not_atomic
    ⟨clean_data (parse_log "1) 3 Jan '24 09:15pm : Alice has died x"), []⟩
    ⟨"Alice", "", "2024-01-01", "garbage", "", ""⟩
    [⟨.str "2024-01-03 04:15:00 PM", "Alice", "has died x", "", none, "Death"⟩]
    [⟨.str "2024-01-03 04:15:00 PM", "Alice", "has died x", "", none, "Death"⟩]
    (by decide) rfl rfl (by decide) (by decide) (Or.inr rfl)

/-- C4 (counterexample): df holds Alice and Bob rows, the previous filtered
view is empty, and apply_filters is invoked with player filter "Alice" plus an
invalid end date.  The claim demands the previous (empty) view be preserved
with no partial filtering; the code signals the date error but leaves the
player-filtered copy — the Alice row — as the new filtered view. -/
theorem c4_counterexample :
    (apply_filters
        ⟨clean_data (parse_log "1) 3 Jan '24 09:15pm : Alice has died x\n2) 3 Jan '24 09:15pm : Bob has died y"), []⟩
        ⟨"Alice", "", "2024-01-01", "garbage", "", ""⟩).2 = Outcome.errDate ∧
    ((apply_filters
        ⟨clean_data (parse_log "1) 3 Jan '24 09:15pm : Alice has died x\n2) 3 Jan '24 09:15pm : Bob has died y"), []⟩
        ⟨"Alice", "", "2024-01-01", "garbage", "", ""⟩).1.filtered.map (fun r => r.Player))
      = ["Alice"] ∧
    (apply_filters
        ⟨clean_data (parse_log "1) 3 Jan '24 09:15pm : Alice has died x\n2) 3 Jan '24 09:15pm : Bob has died y"), []⟩
        ⟨"Alice", "", "2024-01-01", "garbage", "", ""⟩).1.filtered ≠ ([] : List FRow) := by
  refine ⟨by decide, by decide, by decide⟩

/- ### C6 -/

/- Characters with no special regex meaning: a criterion made only of these
is what the claim calls a plain literal substring. -/
def litCh (c : Char) : Bool := c.isAlphanum || c = ' '

/- The AST the parser produces for a literal-only pattern. -/
def litAst : List Char → RAst
  | [] => .eps
  | [c] => .chr c
  | c :: rest => .seq (.chr c) (litAst rest)

theorem litCh_ne (c d : Char) (h : litCh c = true) (hd : litCh d = false) : c ≠ d := by
  intro he
  rw [he, hd] at h
  exact Bool.false_ne_true h

theorem litCh_not_quant (c : Char) (h : litCh c = true) : isQuantCh c = false := by
  cases hq : isQuantCh c with
  | false => rfl
  | true =>
    exfalso
    rw [isQuantCh] at hq
    simp only [Bool.or_eq_true, decide_eq_true_eq] at hq
    rcases hq with (h1 | h1) | h1 <;> (subst h1; exact absurd h (by decide))

theorem parseAtom_lit (c : Char) (rest : List Char) (fuel : Nat)
    (hc : litCh c = true) (hfu : 1 ≤ fuel) :
    parseAtom fuel (c :: rest) = .ok (.chr c, rest) := by
  obtain ⟨f, rfl⟩ : ∃ f, fuel = f + 1 := ⟨fuel - 1, by omega⟩
  rw [parseAtom]
  · simp [litCh_not_quant c hc, litCh_ne c ')' hc (by decide),
      litCh_ne c '|' hc (by decide)]
  · intro h
    exact litCh_ne c '(' hc (by decide) h
  · intro h
    exact litCh_ne c '[' hc (by decide) h
  · intro c1 r1 h hh
    exact litCh_ne c '\\' hc (by decide) h
  · intro h hh
    exact litCh_ne c '\\' hc (by decide) h
  · intro h
    exact litCh_ne c '.' hc (by decide) h
  · intro h
    exact litCh_ne c '^' hc (by decide) h
  · intro h
    exact litCh_ne c '$' hc (by decide) h

theorem parseFactor_lit (c : Char) (rest : List Char) (fuel : Nat)
    (hc : litCh c = true) (hrest : ∀ x ∈ rest, litCh x = true) (hfu : 2 ≤ fuel) :
    parseFactor fuel (c :: rest) = .ok (.chr c, rest) := by
  obtain ⟨f, rfl⟩ : ∃ f, fuel = f + 1 := ⟨fuel - 1, by omega⟩
  rw [parseFactor, parseAtom_lit c rest f hc (by omega)]
  cases rest with
  | nil => rfl
  | cons d r2 =>
    have hd : litCh d = true := hrest d (by simp)
    have h1 : d ≠ '*' := litCh_ne d '*' hd (by decide)
    have h2 : d ≠ '+' := litCh_ne d '+' hd (by decide)
    have h3 : d ≠ '?' := litCh_ne d '?' hd (by decide)
    split
    · rename_i e heq
      exact Except.noConfusion heq
    · rename_i a2 r3 heq
      injection heq with hpair
      injection hpair with ha hr
      subst ha
      subst hr
      split <;> simp_all

theorem parseSeq_lit (cs : List Char) (fuel : Nat)
    (hlit : ∀ x ∈ cs, litCh x = true) (hne : cs ≠ []) (hfu : cs.length + 2 ≤ fuel) :
    parseSeq fuel cs = .ok (litAst cs, []) := by
  induction cs generalizing fuel with
  | nil => exact absurd rfl hne
  | cons c rest ih =>
    obtain ⟨f, rfl⟩ : ∃ f, fuel = f + 1 := ⟨fuel - 1, by omega⟩
    have hc : litCh c = true := hlit c (by simp)
    have hrest : ∀ x ∈ rest, litCh x = true := fun x hx => hlit x (by simp [hx])
    have hfu2 : 2 ≤ f := by
      simp only [List.length_cons] at hfu
      omega
    rw [parseSeq]
    · rw [parseFactor_lit c rest f hc hrest hfu2]
      split
      · rename_i e heq
        exact Except.noConfusion heq
      · rename_i a2 r3 heq
        injection heq with hpair
        injection hpair with ha hr
        subst ha
        subst hr
        cases rest with
        | nil => rfl
        | cons d r2 =>
          have hd : litCh d = true := hrest d (by simp)
          have h1 : d ≠ ')' := litCh_ne d ')' hd (by decide)
          have h2 : d ≠ '|' := litCh_ne d '|' hd (by decide)
          have hrec := ih f hrest (by simp)
            (by simp only [List.length_cons] at hfu ⊢; omega)
          split <;> simp_all [litAst]
    · intro h
      exact List.cons_ne_nil c rest h
    · intro tail h
      injection h with h1 h2
      exact litCh_ne c ')' hc (by decide) h1
    · intro tail h
      injection h with h1 h2
      exact litCh_ne c '|' hc (by decide) h1

theorem parseAlt_lit (cs : List Char) (fuel : Nat)
    (hlit : ∀ x ∈ cs, litCh x = true) (hne : cs ≠ []) (hfu : cs.length + 3 ≤ fuel) :
    parseAlt fuel cs = .ok (litAst cs, []) := by
  obtain ⟨f, rfl⟩ : ∃ f, fuel = f + 1 := ⟨fuel - 1, by omega⟩
  rw [parseAlt, parseSeq_lit cs f hlit hne (by omega)]

theorem compileRe_lit (pat : String) (hlit : ∀ x ∈ pat.data, litCh x = true) :
    compileRe pat = .ok (litAst pat.data) := by
  cases hd : pat.data with
  | nil =>
    rw [compileRe, hd]
    rfl
  | cons c rest =>
    rw [compileRe, hd]
    rw [hd] at hlit
    rw [parseAlt_lit (c :: rest) (2 * (c :: rest).length + 2) hlit (by simp)
      (by simp only [List.length_cons]; omega)]

/- Case-insensitive literal prefix stripping: what matching a literal
pattern does at a fixed position. -/
def ciStrip : List Char → List Char → Option (List Char)
  | [], t => some t
  | _ :: _, [] => none
  | c :: cs, x :: t => if x.toLower = c.toLower then ciStrip cs t else none

/- The spec-side notion the claim asserts: the criterion occurs in the field
as a literal substring, compared case-insensitively. -/
def strContainsCI (s pat : String) : Bool :=
  (s.data.map Char.toLower).tails.any
    (fun t => (pat.data.map Char.toLower).isPrefixOf t)

theorem matchR_lit (cs : List Char) :
    ∀ (fuel flen : Nat) (t : List Char) (k : List Char → Bool),
      cs.length + 1 ≤ fuel →
      matchR fuel (litAst cs) flen t k
        = (match ciStrip cs t with
           | some rest => k rest
           | none => false) := by
  induction cs with
  | nil =>
    intro fuel flen t k hfu
    obtain ⟨f, rfl⟩ : ∃ f, fuel = f + 1 := ⟨fuel - 1, by omega⟩
    rfl
  | cons c rest ih =>
    intro fuel flen t k hfu
    obtain ⟨f, rfl⟩ : ∃ f, fuel = f + 1 := ⟨fuel - 1, by omega⟩
    cases rest with
    | nil =>
      cases t with
      | nil => rfl
      | cons x t2 =>
        have hstep : matchR (f + 1) (litAst [c]) flen (x :: t2) k
            = (decide (x.toLower = c.toLower) && k t2) := rfl
        rw [hstep]
        by_cases heq : x.toLower = c.toLower
        · simp [ciStrip, heq]
        · simp [ciStrip, heq]
    | cons d r2 =>
      obtain ⟨g, rfl⟩ : ∃ g, f = g + 1 := by
        simp only [List.length_cons] at hfu
        exact ⟨f - 1, by omega⟩
      cases t with
      | nil => rfl
      | cons x t2 =>
        have hrec := ih (g + 1) flen t2 k
          (by simp only [List.length_cons] at hfu ⊢; omega)
        have hstep : matchR (g + 1 + 1) (litAst (c :: d :: r2)) flen (x :: t2) k
            = (decide (x.toLower = c.toLower)
                && matchR (g + 1) (litAst (d :: r2)) flen t2 k) := rfl
        rw [hstep, hrec]
        by_cases heq : x.toLower = c.toLower
        · simp [ciStrip, heq]
        · simp [ciStrip, heq]

theorem ciStrip_isPrefix (cs : List Char) :
    ∀ t, (ciStrip cs t).isSome
      = (cs.map Char.toLower).isPrefixOf (t.map Char.toLower) := by
  induction cs with
  | nil =>
    intro t
    simp [ciStrip, List.isPrefixOf]
  | cons c cs2 ih =>
    intro t
    cases t with
    | nil => simp [ciStrip, List.isPrefixOf]
    | cons x t2 =>
      by_cases heq : x.toLower = c.toLower
      · have hbeq : (c.toLower == x.toLower) = true := by
          simp [heq.symm]
        simp [ciStrip, heq, ih t2, List.isPrefixOf, hbeq]
      · have hbeq : (c.toLower == x.toLower) = false := by
          simp only [beq_eq_false_iff_ne, ne_eq]
          exact fun h => heq h.symm
        simp [ciStrip, heq, List.isPrefixOf, hbeq]

theorem rsize_litAst (cs : List Char) : cs.length ≤ rsize (litAst cs) := by
  induction cs with
  | nil => simp [litAst, rsize]
  | cons c rest ih =>
    cases rest with
    | nil => simp [litAst, rsize]
    | cons d r2 =>
      rw [show litAst (c :: d :: r2) = .seq (.chr c) (litAst (d :: r2)) from rfl]
      rw [rsize]
      simp only [List.length_cons] at ih ⊢
      have : rsize (RAst.chr c) = 1 := rfl
      omega

theorem reMatchB_lit (pat s : String) :
    reMatchB (litAst pat.data) s = strContainsCI s pat := by
  have hfuel : pat.data.length + 1 ≤ matchFuel (litAst pat.data) s.data.length := by
    have h1 := rsize_litAst pat.data
    have h2 : rsize (litAst pat.data) + 2
        ≤ (rsize (litAst pat.data) + 2) * ((s.data.length + 2) * 2) :=
      Nat.le_mul_of_pos_right _ (by omega)
    rw [matchFuel, Nat.mul_assoc]
    omega
  rw [reMatchB, strContainsCI, List.map_tails, List.any_map]
  apply congrArg
  funext t
  simp only [Function.comp_apply]
  rw [matchR_lit pat.data _ _ t _ hfuel, ← ciStrip_isPrefix pat.data t]
  cases hcs : ciStrip pat.data t <;> simp [hcs]

/- Path lemmas for apply_filters, phrased with the intermediate filter
results as hypotheses so each branch can be discharged by rewriting. -/

theorem apply_filters_no_date (st : AppState) (c : Criteria) (fd1 fd2 fd4 : List FRow)
    (hdf : st.df ≠ [])
    (h1 : (if pyStrip c.player ≠ "" then
        containsFilter (st.df.map toFRow) (fun r => r.Player) (pyStrip c.player)
      else .ok (st.df.map toFRow)) = .ok fd1)
    (h2 : (if pyStrip c.eventType ≠ "" then
        containsFilter fd1 (fun r => r.EventType) (pyStrip c.eventType)
      else .ok fd1) = .ok fd2)
    (hdate : pyStrip c.startDate = "" ∨ pyStrip c.endDate = "")
    (h4 : (if pyStrip c.find ≠ "" then findFilter fd2 (pyStrip c.find)
      else .ok fd2) = .ok fd4) :
    apply_filters st c
      = (if pyStrip c.sortBy ≠ "" then
          (if pyStrip c.sortBy ∈ dfColumns then (⟨st.df, sortValues fd4 (pyStrip c.sortBy)⟩, Outcome.ok)
           else (⟨st.df, fd4⟩, Outcome.errSort))
         else (⟨st.df, fd4⟩, Outcome.ok)) := by
  have hdfE : st.df.isEmpty = false := by
    cases hd : st.df with
    | nil => exact absurd hd hdf
    | cons a r => rfl
  rw [apply_filters]
  simp only [hdfE, Bool.false_eq_true, if_false, h1, h2]
  have hcond : (decide (pyStrip c.startDate ≠ "") && decide (pyStrip c.endDate ≠ "")) = false := by
    rcases hdate with h | h <;> simp [h]
  rw [if_neg (by rw [hcond]; exact Bool.false_ne_true)]
  rw [findSortStage]
  simp only [h4]

theorem apply_filters_with_date (st : AppState) (c : Criteria) (fd1 fd2 : List FRow)
    (lo hi : DT) (fd4 : List FRow)
    (hdf : st.df ≠ [])
    (h1 : (if pyStrip c.player ≠ "" then
        containsFilter (st.df.map toFRow) (fun r => r.Player) (pyStrip c.player)
      else .ok (st.df.map toFRow)) = .ok fd1)
    (h2 : (if pyStrip c.eventType ≠ "" then
        containsFilter fd1 (fun r => r.EventType) (pyStrip c.eventType)
      else .ok fd1) = .ok fd2)
    (hs : pyStrip c.startDate ≠ "") (he : pyStrip c.endDate ≠ "")
    (hlo : parseUserDate (pyStrip c.startDate) = some lo)
    (hhi : parseUserDate (pyStrip c.endDate) = some hi)
    (h4 : (if pyStrip c.find ≠ "" then
        findFilter ((fd2.map (fun r => { r with Timestamp := convertTsCell r.Timestamp })).filter (rangeKeep lo hi)) (pyStrip c.find)
      else .ok ((fd2.map (fun r => { r with Timestamp := convertTsCell r.Timestamp })).filter (rangeKeep lo hi))) = .ok fd4) :
    apply_filters st c
      = (if pyStrip c.sortBy ≠ "" then
          (if pyStrip c.sortBy ∈ dfColumns then (⟨st.df, sortValues fd4 (pyStrip c.sortBy)⟩, Outcome.ok)
           else (⟨st.df, fd4⟩, Outcome.errSort))
         else (⟨st.df, fd4⟩, Outcome.ok)) := by
  have hdfE : st.df.isEmpty = false := by
    cases hd : st.df with
    | nil => exact absurd hd hdf
    | cons a r => rfl
  rw [apply_filters]
  simp only [hdfE, Bool.false_eq_true, if_false, h1, h2]
  have hcond : (decide (pyStrip c.startDate ≠ "") && decide (pyStrip c.endDate ≠ "")) = true := by
    simp [hs, he]
  rw [if_pos (by rw [hcond])]
  rw [hlo, hhi]
  split
  · rename_i lo2 hi2 heq1 heq2
    injection heq1 with e1
    injection heq2 with e2
    subst e1
    subst e2
    rw [findSortStage]
    simp only [h4]
  · rename_i hno
    exact absurd rfl (fun h => hno lo hi h rfl)

/-- C6 (amended): the player criterion is NOT a literal substring — pandas
`str.contains(..., case=False)` interprets it as a case-insensitive regular
expression via `re.search`.  (1) For criteria with no regex metacharacters
this coincides with case-insensitive literal substring matching; (2) under
such a criterion the filter keeps exactly the rows whose Player field
contains it case-insensitively; (3) a criterion that is not a valid regex,
such as `(`, raises out of the filter instead of never raising. -/
theorem c6_player_filter_regex_semantics :
    (∀ pat s : String, (∀ x ∈ pat.data, litCh x = true) →
      reSearchCI pat s = .ok (strContainsCI s pat)) ∧
    (∀ st c, st.df ≠ [] → pyStrip c.player ≠ "" →
      (∀ x ∈ (pyStrip c.player).data, litCh x = true) →
      pyStrip c.eventType = "" → pyStrip c.startDate = "" → pyStrip c.endDate = "" →
      pyStrip c.find = "" → pyStrip c.sortBy = "" →
      apply_filters st c
        = (⟨st.df, (st.df.map toFRow).filter
            (fun r => strContainsCI r.Player (pyStrip c.player))⟩, Outcome.ok)) ∧
    (∀ st c, st.df ≠ [] → pyStrip c.player = "(" →
      apply_filters st c = (⟨st.df, st.df.map toFRow⟩, Outcome.exnRegex)) := by
  have hcf : ∀ (rows : List FRow) (pat : String), (∀ x ∈ pat.data, litCh x = true) →
      containsFilter rows (fun r => r.Player) pat
        = .ok (rows.filter (fun r => strContainsCI r.Player pat)) := by
    intro rows pat hlit
    rw [containsFilter, compileRe_lit pat hlit]
    show Except.ok (rows.filter (fun row => reMatchB (litAst pat.data) row.Player))
        = Except.ok (rows.filter (fun r => strContainsCI r.Player pat))
    apply congrArg
    apply List.filter_congr
    intro r _
    rw [reMatchB_lit pat r.Player]
  refine ⟨?_, ?_, ?_⟩
  · intro pat s hlit
    rw [reSearchCI, compileRe_lit pat hlit]
    show Except.ok (reMatchB (litAst pat.data) s) = Except.ok (strContainsCI s pat)
    rw [reMatchB_lit pat s]
  · intro st c hdf hp hlit hev hs he hfind hsort
    have happ := apply_filters_no_date st c
      ((st.df.map toFRow).filter (fun r => strContainsCI r.Player (pyStrip c.player)))
      ((st.df.map toFRow).filter (fun r => strContainsCI r.Player (pyStrip c.player)))
      ((st.df.map toFRow).filter (fun r => strContainsCI r.Player (pyStrip c.player)))
      hdf
      (by rw [if_pos hp, hcf (st.df.map toFRow) (pyStrip c.player) hlit])
      (by rw [if_neg (fun hcon => hcon hev)])
      (Or.inl hs)
      (by rw [if_neg (fun hcon => hcon hfind)])
    rw [happ, if_neg (fun hcon => hcon hsort)]
  · intro st c hdf hp
    have hdfE : st.df.isEmpty = false := by
      cases hd : st.df with
      | nil => exact absurd hd hdf
      | cons a r => rfl
    rw [apply_filters]
    simp only [hdfE, Bool.false_eq_true, if_false]
    rw [if_pos (show pyStrip c.player ≠ "" from by rw [hp]; decide)]
    rw [hp]
    rw [show containsFilter (st.df.map toFRow) (fun r => r.Player) "(" = .error () from rfl]

theorem c6_witness :
    apply_filters ⟨[⟨"", "Boby", "has died x", "", none, "Death"⟩], []⟩
        ⟨"Boby", "", "", "", "", ""⟩
      = (⟨[⟨"", "Boby", "has died x", "", none, "Death"⟩],
          ([(⟨"", "Boby", "has died x", "", none, "Death"⟩ : CRow)].map toFRow).filter
            (fun r => strContainsCI r.Player (pyStrip "Boby"))⟩, Outcome.ok) ∧
    reSearchCI "Boby" "a BOBY b" = .ok (strContainsCI "a BOBY b" "Boby") :=
  ⟨c6_player_filter_regex_semantics.2.1
      ⟨[⟨"", "Boby", "has died x", "", none, "Death"⟩], []⟩
      ⟨"Boby", "", "", "", "", ""⟩
      (by decide) (by decide) (by decide) rfl rfl rfl rfl rfl,
    c6_player_filter_regex_semantics.1 "Boby" "a BOBY b" (by decide)⟩

/-- C6 (counterexample): with the single record for player `Boby` and the
criterion `Bob.`, the filter KEEPS the record — `.` matches any character
under regex search — although `Bob.` is not a case-insensitive literal
substring of `Boby`, refuting "literal substring ... no other
interpretation"; and criterion `(` raises (re.error propagates out of
apply_filters) instead of never raising. -/
theorem c6_counterexample :
    (apply_filters ⟨[⟨"", "Boby", "has died x", "", none, "Death"⟩], []⟩
        ⟨"Bob.", "", "", "", "", ""⟩).1.filtered.map (fun r => r.Player) = ["Boby"] ∧
    strContainsCI "Boby" "Bob." = false ∧
    (apply_filters ⟨[⟨"", "Boby", "has died x", "", none, "Death"⟩], []⟩
        ⟨"(", "", "", "", "", ""⟩).2 = Outcome.exnRegex := by
  exact ⟨by decide, by decide, by decide⟩
/- ### Order facts for sort_values.  listLtB computes the Mathlib
lexicographic order on List Char, hence strLeB the String order. -/

theorem listLtB_iff (l1 : List Char) : ∀ l2, listLtB l1 l2 = true ↔ l1 < l2 := by
  induction l1 with
  | nil =>
    intro l2
    cases l2 with
    | nil =>
      constructor
      · intro h
        exact absurd h (by rw [listLtB]; exact Bool.false_ne_true)
      · intro h
        cases h
    | cons b bs =>
      constructor
      · intro _
        exact List.Lex.nil
      · intro _
        rfl
  | cons a as ih =>
    intro l2
    cases l2 with
    | nil =>
      constructor
      · intro h
        exact absurd h (by rw [listLtB]; exact Bool.false_ne_true)
      · intro h
        cases h
    | cons b bs =>
      rw [listLtB]
      by_cases hab : a < b
      · simp only [if_pos hab]
        constructor
        · intro _
          exact List.Lex.rel hab
        · intro _
          trivial
      · by_cases hba : b < a
        · simp only [if_neg hab, if_pos hba]
          constructor
          · intro h
            exact absurd h Bool.false_ne_true
          · intro h
            cases h with
            | cons h3 => exact absurd hba (lt_irrefl a)
            | rel h2 => exact absurd h2 hab
        · have heq : a = b := le_antisymm (not_lt.mp hba) (not_lt.mp hab)
          subst heq
          simp only [if_neg hab, if_neg hba]
          rw [ih bs]
          constructor
          · intro h
            exact List.Lex.cons h
          · intro h
            cases h with
            | cons h3 => exact h3
            | rel h2 => exact absurd h2 hab

theorem strLeB_iff (a b : String) : strLeB a b = true ↔ a ≤ b := by
  have hd : (listLtB b.data a.data = true) ↔ b < a := by
    rw [listLtB_iff]
    exact (@String.lt_iff_toList_lt b a).symm
  constructor
  · intro h
    refine not_lt.mp (fun hba => ?_)
    rw [strLeB, hd.mpr hba] at h
    exact absurd h (by simp)
  · intro hle
    rw [strLeB]
    cases h2 : listLtB b.data a.data with
    | false => rfl
    | true => exact absurd (hd.mp h2) (not_lt.mpr hle)

theorem strLeB_total (a b : String) : strLeB a b = true ∨ strLeB b a = true := by
  rcases le_total a b with h | h
  · exact Or.inl ((strLeB_iff a b).mpr h)
  · exact Or.inr ((strLeB_iff b a).mpr h)

theorem strLeB_trans (a b c : String) (h1 : strLeB a b = true) (h2 : strLeB b c = true) :
    strLeB a c = true :=
  (strLeB_iff a c).mpr (le_trans ((strLeB_iff a b).mp h1) ((strLeB_iff b c).mp h2))

theorem natLeB_total (a b : Nat) : natLeB a b = true ∨ natLeB b a = true := by
  rcases Nat.le_total a b with h | h
  · exact Or.inl (decide_eq_true h)
  · exact Or.inr (decide_eq_true h)

theorem natLeB_trans (a b c : Nat) (h1 : natLeB a b = true) (h2 : natLeB b c = true) :
    natLeB a c = true :=
  decide_eq_true (Nat.le_trans (of_decide_eq_true h1) (of_decide_eq_true h2))

theorem optLeB_total {κ : Type} (le : κ → κ → Bool)
    (htot : ∀ u v, le u v = true ∨ le v u = true) :
    ∀ u v : Option κ, optLeB le u v = true ∨ optLeB le v u = true
  | none, none => Or.inl rfl
  | none, some _ => Or.inr rfl
  | some _, none => Or.inl rfl
  | some u, some v => htot u v

theorem optLeB_trans {κ : Type} (le : κ → κ → Bool)
    (htr : ∀ u v w, le u v = true → le v w = true → le u w = true)
    (u v w : Option κ) (h1 : optLeB le u v = true) (h2 : optLeB le v w = true) :
    optLeB le u w = true := by
  cases u with
  | none =>
    cases v with
    | none =>
      cases w with
      | none => rfl
      | some w0 => exact h2
    | some v0 =>
      cases w with
      | none => rfl
      | some w0 => exact absurd h1 Bool.false_ne_true
  | some u0 =>
    cases v with
    | none =>
      cases w with
      | none => rfl
      | some w0 => exact absurd h2 Bool.false_ne_true
    | some v0 =>
      cases w with
      | none => rfl
      | some w0 => exact htr u0 v0 w0 h1 h2

theorem insertAsc_perm {κ : Type} (le : κ → κ → Bool) (key : FRow → Option κ)
    (x : FRow) (l : List FRow) : List.Perm (insertAsc le key x l) (x :: l) := by
  induction l with
  | nil => exact List.Perm.refl _
  | cons y ys ih =>
    rw [insertAsc]
    by_cases h : optLeB le (key x) (key y) = true
    · rw [if_pos h]
    · rw [if_neg h]
      exact (ih.cons y).trans (List.Perm.swap x y ys)

theorem sortAsc_perm {κ : Type} (le : κ → κ → Bool) (key : FRow → Option κ)
    (l : List FRow) : List.Perm (sortAsc le key l) l := by
  induction l with
  | nil => exact List.Perm.refl _
  | cons x xs ih =>
    rw [sortAsc]
    exact (insertAsc_perm le key x (sortAsc le key xs)).trans (ih.cons x)

theorem insertAsc_pairwise {κ : Type} (le : κ → κ → Bool) (key : FRow → Option κ)
    (htot : ∀ u v, optLeB le u v = true ∨ optLeB le v u = true)
    (htr : ∀ u v w, optLeB le u v = true → optLeB le v w = true → optLeB le u w = true)
    (x : FRow) (l : List FRow)
    (hs : l.Pairwise (fun p q => optLeB le (key p) (key q) = true)) :
    (insertAsc le key x l).Pairwise (fun p q => optLeB le (key p) (key q) = true) := by
  induction l with
  | nil => simp [insertAsc]
  | cons y ys ih =>
    rw [insertAsc]
    rcases List.pairwise_cons.mp hs with ⟨hy, hys⟩
    by_cases h : optLeB le (key x) (key y) = true
    · rw [if_pos h]
      refine List.pairwise_cons.mpr ⟨?_, hs⟩
      intro z hz
      rcases List.mem_cons.mp hz with hzy | hzys
      · rw [hzy]
        exact h
      · exact htr _ _ _ h (hy z hzys)
    · rw [if_neg h]
      refine List.pairwise_cons.mpr ⟨?_, ih hys⟩
      intro z hz
      have hz2 := (insertAsc_perm le key x ys).mem_iff.mp hz
      rcases List.mem_cons.mp hz2 with hzx | hzys
      · rw [hzx]
        rcases htot (key x) (key y) with h1 | h1
        · exact absurd h1 h
        · exact h1
      · exact hy z hzys

theorem sortAsc_pairwise {κ : Type} (le : κ → κ → Bool) (key : FRow → Option κ)
    (htot : ∀ u v, optLeB le u v = true ∨ optLeB le v u = true)
    (htr : ∀ u v w, optLeB le u v = true → optLeB le v w = true → optLeB le u w = true)
    (l : List FRow) :
    (sortAsc le key l).Pairwise (fun p q => optLeB le (key p) (key q) = true) := by
  induction l with
  | nil => simp [sortAsc]
  | cons x xs ih =>
    rw [sortAsc]
    exact insertAsc_pairwise le key htot htr x (sortAsc le key xs) ih
/-- C5 (amended): with a sort key supplied, `sort_values` orders the view
ascending by that key.  For the Level key the missing values do sort last:
with only sortBy = "Level" set, apply_filters succeeds, keeps df intact,
returns exactly the insertion sort of the records by Level, a permutation
of them, pairwise ordered under optLeB natLeB — an order that places every
absent level after every present one.  But the claimed single nulls-last
convention does not extend to Timestamp: an unparseable timestamp is
stored as the empty STRING sentinel, which sorts before every real
display string (see the counterexample), and stability is not guaranteed
by the source, which uses the pandas default (quicksort) rather than a
stable kind. -/
theorem c5_sort_level_ascending_nulls_last (st : AppState) (c : Criteria)
    (hdf : st.df ≠ [])
    (hp : pyStrip c.player = "") (he : pyStrip c.eventType = "")
    (hs : pyStrip c.startDate = "") (hf : pyStrip c.find = "")
    (hsort : pyStrip c.sortBy = "Level") :
    (apply_filters st c).2 = Outcome.ok
    ∧ (apply_filters st c).1.df = st.df
    ∧ (apply_filters st c).1.filtered
        = sortAsc natLeB (fun r => r.Level) (st.df.map toFRow)
    ∧ List.Perm (apply_filters st c).1.filtered (st.df.map toFRow)
    ∧ (apply_filters st c).1.filtered.Pairwise
        (fun p q => optLeB natLeB p.Level q.Level = true) := by
  have h1 : (if pyStrip c.player ≠ "" then
        containsFilter (st.df.map toFRow) (fun r => r.Player) (pyStrip c.player)
      else .ok (st.df.map toFRow)) = .ok (st.df.map toFRow) := by
    rw [hp]
    simp
  have h2 : (if pyStrip c.eventType ≠ "" then
        containsFilter (st.df.map toFRow) (fun r => r.EventType) (pyStrip c.eventType)
      else .ok (st.df.map toFRow)) = .ok (st.df.map toFRow) := by
    rw [he]
    simp
  have h4 : (if pyStrip c.find ≠ "" then findFilter (st.df.map toFRow) (pyStrip c.find)
      else .ok (st.df.map toFRow)) = .ok (st.df.map toFRow) := by
    rw [hf]
    simp
  have hmain := apply_filters_no_date st c _ _ _ hdf h1 h2 (Or.inl hs) h4
  rw [hsort] at hmain
  rw [if_pos (by decide), if_pos (by decide)] at hmain
  have hlv : sortValues (st.df.map toFRow) "Level"
      = sortAsc natLeB (fun r => r.Level) (st.df.map toFRow) := by
    rw [sortValues, if_neg (by decide), if_neg (by decide), if_neg (by decide),
      if_neg (by decide), if_pos (by decide)]
  rw [hlv] at hmain
  refine ⟨?_, ?_, ?_, ?_, ?_⟩
  · rw [hmain]
  · rw [hmain]
  · rw [hmain]
  · rw [hmain]
    exact sortAsc_perm natLeB (fun r => r.Level) (st.df.map toFRow)
  · rw [hmain]
    exact sortAsc_pairwise natLeB (fun r => r.Level)
      (optLeB_total natLeB natLeB_total) (optLeB_trans natLeB natLeB_trans)
      (st.df.map toFRow)

theorem c5_witness :
    (apply_filters ⟨[⟨"", "Ann", "has died", "", none, "Death"⟩,
          ⟨"", "Bob", "Leveled to 5", "", some 5, "Level Up"⟩], []⟩
        ⟨"", "", "", "", "", "Level"⟩).2 = Outcome.ok
    ∧ (apply_filters ⟨[⟨"", "Ann", "has died", "", none, "Death"⟩,
          ⟨"", "Bob", "Leveled to 5", "", some 5, "Level Up"⟩], []⟩
        ⟨"", "", "", "", "", "Level"⟩).1.filtered.Pairwise
        (fun p q => optLeB natLeB p.Level q.Level = true) :=
  have h := c5_sort_level_ascending_nulls_last
    ⟨[⟨"", "Ann", "has died", "", none, "Death"⟩,
      ⟨"", "Bob", "Leveled to 5", "", some 5, "Level Up"⟩], []⟩
    ⟨"", "", "", "", "", "Level"⟩
    (fun hx => List.noConfusion hx) rfl rfl rfl rfl rfl
  ⟨h.1, h.2.2.2.2⟩

/-- C5 (counterexample): sorting by Timestamp puts the null-timestamp
sentinel FIRST, not last.  parse_log stores an unparseable timestamp as
the empty string, an ordinary string cell that precedes every real
display string in ascending order: here the record of Cid (empty
timestamp) sorts before the record of Bob (real timestamp), refuting the
claimed consistent nulls-last convention. -/
theorem c5_counterexample :
    (apply_filters ⟨[⟨"2024-01-03 04:15:00 PM", "Bob", "has died", "", none, "Death"⟩,
          ⟨"", "Cid", "has died", "", none, "Death"⟩], []⟩
        ⟨"", "", "", "", "", "Timestamp"⟩).1.filtered.map (fun r => r.Player)
      = ["Cid", "Bob"] := by decide
/- ### The 24-hour rendering carries no timezone offset -/

theorem digitChar_digit (m : Nat) (hm : m < 10) : isDigitCh (Nat.digitChar m) = true := by
  interval_cases m <;> decide

theorem toDigitsCore_digits :
    ∀ (fuel n : Nat) (ds : List Char), (∀ ch ∈ ds, isDigitCh ch = true) →
      ∀ ch ∈ Nat.toDigitsCore 10 fuel n ds, isDigitCh ch = true := by
  intro fuel
  induction fuel with
  | zero =>
    intro n ds hds ch hch
    exact hds ch hch
  | succ f ih =>
    intro n ds hds ch hch
    rw [Nat.toDigitsCore] at hch
    by_cases h0 : n / 10 = 0
    · rw [if_pos h0] at hch
      rcases List.mem_cons.mp hch with h | h
      · rw [h]
        exact digitChar_digit _ (Nat.mod_lt n (by decide))
      · exact hds ch h
    · rw [if_neg h0] at hch
      refine ih (n / 10) _ ?_ ch hch
      intro c hc
      rcases List.mem_cons.mp hc with h | h
      · rw [h]
        exact digitChar_digit _ (Nat.mod_lt n (by decide))
      · exact hds c h

theorem repr_digits (n : Nat) : ∀ ch ∈ (toString n).data, isDigitCh ch = true := by
  intro ch hch
  have hdata : (toString n).data = Nat.toDigitsCore 10 (n + 1) n [] := rfl
  rw [hdata] at hch
  exact toDigitsCore_digits (n + 1) n [] (by intro c hc; cases hc) ch hch

theorem pad2_digits (n : Nat) : ∀ ch ∈ (pad2 n).data, isDigitCh ch = true := by
  intro ch hch
  rw [pad2] at hch
  by_cases h : n < 10
  · rw [if_pos h] at hch
    have hz : ("0" ++ toString n).data = '0' :: (toString n).data := rfl
    rw [hz] at hch
    rcases List.mem_cons.mp hch with h2 | h2
    · rw [h2]
      decide
    · exact repr_digits n ch h2
  · rw [if_neg h] at hch
    exact repr_digits n ch hch

theorem pad4_digits (n : Nat) : ∀ ch ∈ (pad4 n).data, isDigitCh ch = true := by
  intro ch hch
  exact repr_digits n ch hch

theorem digits_count0 (s : String) (hd : ∀ ch ∈ s.data, isDigitCh ch = true)
    (c : Char) (hc : isDigitCh c = false) : s.data.count c = 0 :=
  List.count_eq_zero.mpr (fun hmem => by rw [hd c hmem] at hc; exact Bool.noConfusion hc)

theorem render24_dash_count (t : DT) : (render24 t).data.count '-' = 2 := by
  rw [render24]
  simp only [String.data_append, List.count_append]
  rw [digits_count0 (pad4 t.y) (pad4_digits t.y) '-' (by decide),
    digits_count0 (pad2 t.mo) (pad2_digits t.mo) '-' (by decide),
    digits_count0 (pad2 t.d) (pad2_digits t.d) '-' (by decide),
    digits_count0 (pad2 t.h) (pad2_digits t.h) '-' (by decide),
    digits_count0 (pad2 t.mi) (pad2_digits t.mi) '-' (by decide),
    digits_count0 (pad2 t.s) (pad2_digits t.s) '-' (by decide)]
  decide

theorem render24_no_plus (t : DT) : '+' ∉ (render24 t).data := by
  intro hmem
  rw [render24] at hmem
  simp only [String.data_append, List.mem_append] at hmem
  rcases hmem with ((((((((((h | h) | h) | h) | h) | h) | h) | h) | h) | h) | h)
  all_goals first
    | (exact absurd (pad4_digits t.y _ h) (by decide))
    | (exact absurd (pad2_digits t.mo _ h) (by decide))
    | (exact absurd (pad2_digits t.d _ h) (by decide))
    | (exact absurd (pad2_digits t.h _ h) (by decide))
    | (exact absurd (pad2_digits t.mi _ h) (by decide))
    | (exact absurd (pad2_digits t.s _ h) (by decide))
    | (exact absurd h (by decide))
theorem rangeKeep_ts (lo hi : DT) (r : FRow) (h : rangeKeep lo hi r = true) :
    ∃ t : DT, r.Timestamp = TsCell.dt (some t) := by
  unfold rangeKeep at h
  cases hts : r.Timestamp with
  | str v =>
    rw [hts] at h
    exact absurd h Bool.false_ne_true
  | dt o =>
    cases o with
    | none =>
      rw [hts] at h
      exact absurd h Bool.false_ne_true
    | some t => exact ⟨t, rfl⟩

/-- C9 (amended): when a date-range filter is active (both bounds parse),
apply_filters re-types the Timestamp column of the partially filtered view
before range filtering: the resulting view is the converted-and-ranged
list, and every surviving row carries a parsed datetime cell whose
stringification for the free-text search (rowFieldStrs) and for the CSV
export (csvRow) is the 24-hour str() rendering `YYYY-MM-DD HH:MM:SS` —
with NO timezone offset: it contains no plus sign and only the two date
dashes — instead of the stored `YYYY-MM-DD hh:mm:ss AM/PM` display
format.  With no date filter (second conjunct) the view keeps the display
strings unchanged: it is exactly the toFRow image of the loaded records,
whose Timestamp cells are the stored strings. -/
theorem c9_date_filter_retypes_timestamps (st : AppState) (c : Criteria)
    (lo hi : DT) (hdf : st.df ≠ [])
    (hp : pyStrip c.player = "") (he : pyStrip c.eventType = "")
    (hs : pyStrip c.startDate ≠ "") (hend : pyStrip c.endDate ≠ "")
    (hlo : parseUserDate (pyStrip c.startDate) = some lo)
    (hhi : parseUserDate (pyStrip c.endDate) = some hi)
    (hf : pyStrip c.find = "") (hsort : pyStrip c.sortBy = "") :
    ((apply_filters st c).2 = Outcome.ok
      ∧ (apply_filters st c).1.filtered
          = ((st.df.map toFRow).map
              (fun r => { r with Timestamp := convertTsCell r.Timestamp })).filter
              (rangeKeep lo hi)
      ∧ ∀ r ∈ (apply_filters st c).1.filtered, ∃ t : DT,
          r.Timestamp = TsCell.dt (some t)
          ∧ rowFieldStrs r
              = render24 t :: [r.Player, r.Event, r.Details, strOfLevel r.Level, r.EventType]
          ∧ csvRow r
              = render24 t :: [r.Player, r.Event, r.Details, csvLevel r.Level, r.EventType]
          ∧ '+' ∉ (render24 t).data
          ∧ (render24 t).data.count '-' = 2)
    ∧ ∀ (st2 : AppState) (c2 : Criteria), st2.df ≠ [] →
        pyStrip c2.player = "" → pyStrip c2.eventType = "" →
        pyStrip c2.startDate = "" → pyStrip c2.find = "" → pyStrip c2.sortBy = "" →
        (apply_filters st2 c2).1.filtered = st2.df.map toFRow
        ∧ ∀ cr ∈ st2.df, (toFRow cr).Timestamp = TsCell.str cr.Timestamp := by
  constructor
  · have h1 : (if pyStrip c.player ≠ "" then
          containsFilter (st.df.map toFRow) (fun r => r.Player) (pyStrip c.player)
        else .ok (st.df.map toFRow)) = .ok (st.df.map toFRow) := by
      rw [hp]
      simp
    have h2 : (if pyStrip c.eventType ≠ "" then
          containsFilter (st.df.map toFRow) (fun r => r.EventType) (pyStrip c.eventType)
        else .ok (st.df.map toFRow)) = .ok (st.df.map toFRow) := by
      rw [he]
      simp
    have h4 : (if pyStrip c.find ≠ "" then
          findFilter (((st.df.map toFRow).map
            (fun r => { r with Timestamp := convertTsCell r.Timestamp })).filter
            (rangeKeep lo hi)) (pyStrip c.find)
        else .ok (((st.df.map toFRow).map
            (fun r => { r with Timestamp := convertTsCell r.Timestamp })).filter
            (rangeKeep lo hi)))
        = .ok (((st.df.map toFRow).map
            (fun r => { r with Timestamp := convertTsCell r.Timestamp })).filter
            (rangeKeep lo hi)) := by
      rw [hf]
      simp
    have hmain := apply_filters_with_date st c (st.df.map toFRow) (st.df.map toFRow)
      lo hi _ hdf h1 h2 hs hend hlo hhi h4
    rw [hsort] at hmain
    rw [if_neg (by decide)] at hmain
    refine ⟨?_, ?_, ?_⟩
    · rw [hmain]
    · rw [hmain]
    · intro r hr
      rw [hmain] at hr
      rcases List.mem_filter.mp hr with ⟨hr1, hr2⟩
      rcases rangeKeep_ts lo hi r hr2 with ⟨t, hts⟩
      refine ⟨t, hts, ?_, ?_, render24_no_plus t, render24_dash_count t⟩
      · rw [rowFieldStrs, hts]
        rfl
      · rw [csvRow, hts]
        rfl
  · intro st2 c2 hdf2 hp2 he2 hs2 hf2 hsort2
    have h1 : (if pyStrip c2.player ≠ "" then
          containsFilter (st2.df.map toFRow) (fun r => r.Player) (pyStrip c2.player)
        else .ok (st2.df.map toFRow)) = .ok (st2.df.map toFRow) := by
      rw [hp2]
      simp
    have h2 : (if pyStrip c2.eventType ≠ "" then
          containsFilter (st2.df.map toFRow) (fun r => r.EventType) (pyStrip c2.eventType)
        else .ok (st2.df.map toFRow)) = .ok (st2.df.map toFRow) := by
      rw [he2]
      simp
    have h4 : (if pyStrip c2.find ≠ "" then findFilter (st2.df.map toFRow) (pyStrip c2.find)
        else .ok (st2.df.map toFRow)) = .ok (st2.df.map toFRow) := by
      rw [hf2]
      simp
    have hmain := apply_filters_no_date st2 c2 _ _ _ hdf2 h1 h2 (Or.inl hs2) h4
    rw [hsort2] at hmain
    rw [if_neg (by decide)] at hmain
    refine ⟨?_, ?_⟩
    · rw [hmain]
    · intro cr hcr
      rfl

theorem c9_witness :
    (apply_filters ⟨[⟨"2024-01-03 04:15:00 PM", "Bob", "has died", "", none, "Death"⟩], []⟩
        ⟨"", "", "2024-01-01", "2024-01-10", "", ""⟩).2 = Outcome.ok :=
  (c9_date_filter_retypes_timestamps
    ⟨[⟨"2024-01-03 04:15:00 PM", "Bob", "has died", "", none, "Death"⟩], []⟩
    ⟨"", "", "2024-01-01", "2024-01-10", "", ""⟩
    ⟨2024, 1, 1, 0, 0, 0⟩ ⟨2024, 1, 10, 0, 0, 0⟩
    (fun hx => List.noConfusion hx) rfl rfl (by decide) (by decide) (by decide) (by decide)
    rfl rfl).1.1

/-- C9 (counterexample): the claim says the datetime rendering carries a
timezone offset.  The stored display strings are naive (parse_log already
converted them to Eastern and serialized without any offset), so the
re-parsed values render as plain `YYYY-MM-DD HH:MM:SS`: the exported cell
of the surviving row is `2024-01-03 16:15:00`, containing no plus sign
and only the two date dashes — no timezone offset anywhere. -/
theorem c9_counterexample :
    ((apply_filters ⟨[⟨"2024-01-03 04:15:00 PM", "Bob", "has died", "", none, "Death"⟩], []⟩
        ⟨"", "", "2024-01-01", "2024-01-10", "", ""⟩).1.filtered.map csvRow
      = [["2024-01-03 16:15:00", "Bob", "has died", "", "", "Death"]])
    ∧ '+' ∉ "2024-01-03 16:15:00".data
    ∧ "2024-01-03 16:15:00".data.count '-' = 2 :=
  ⟨by decide, by decide, by decide⟩
